import Mathlib

/-!
Shallow embedding of the FRU encoding/decoding core of the `frugen` tool
(`fru.c` / `fru.h`), together with theorems checking the natural-language
specification against it.

Bytes are modelled as `Nat` values; machine-integer truncation is written
explicitly as `% 256` (for `uint8_t` stores) and `% 64` where the C code
masks with `0x3F`.  Strings are NUL-free byte lists; `strlen` is the list
length.  Heap allocation is assumed to succeed except where a claim is
explicitly about allocation failure.
-/

set_option maxRecDepth 100000

/-- C macro `FRU_FIELDDATALEN(x) = (x) & ~0xC0` on a non-negative int:
clear bits 6 and 7. -/
def FRU_FIELDDATALEN (x : Nat) : Nat := x - (x &&& 192)

/-- C macro `FRU_MAKETYPE(x) = type_code << 6`. -/
def FRU_MAKETYPE (t : Nat) : Nat := t <<< 6

/-- C macro `FRU_TYPELEN(t, l) = FRU_MAKETYPE(t) | FRU_FIELDDATALEN(l)`. -/
def FRU_TYPELEN (t l : Nat) : Nat := FRU_MAKETYPE t ||| FRU_FIELDDATALEN l

/-- C macro `FRU_FIELDSIZE(typelen) = FRU_FIELDDATALEN(typelen) + 1`
(`sizeof(fru_field_t)` is 1: the typelen byte plus a flexible array). -/
def FRU_FIELDSIZE (typelen : Nat) : Nat := FRU_FIELDDATALEN typelen + 1

/-- C macro `FRU_TYPE(t) = (t & 0xC0) >> 6`. -/
def FRU_TYPE (t : Nat) : Nat := (t &&& 192) >>> 6

/-- C macro `FRU_6BIT_LENGTH(len) = (len * 3 + 3) / 4`. -/
def FRU_6BIT_LENGTH (len : Nat) : Nat := (len * 3 + 3) / 4

/-- C macro `FRU_6BIT_FULLLENGTH(l6) = (l6 * 4) / 3`. -/
def FRU_6BIT_FULLLENGTH (l6 : Nat) : Nat := l6 * 4 / 3

/-- `FRU_FIELD_EMPTY = FRU_TYPELEN(TEXT, 0) = 0xC0`. -/
def FRU_FIELD_EMPTY : Nat := FRU_TYPELEN 3 0

/-- `FRU_FIELD_TERMINATOR = FRU_TYPELEN(TEXT, 1) = 0xC1`. -/
def FRU_FIELD_TERMINATOR : Nat := FRU_TYPELEN 3 1

/-- `FRU_BLOCK_SZ = 8`. -/
def FRU_BLOCK_SZ : Nat := 8

/-- C macro `FRU_BYTES(blocks) = blocks * 8`. -/
def FRU_BYTES (blocks : Nat) : Nat := blocks * FRU_BLOCK_SZ

/-- C macro `FRU_BLOCKS(bytes) = (bytes + 7) / 8`. -/
def FRU_BLOCKS (bytes : Nat) : Nat := (bytes + FRU_BLOCK_SZ - 1) / FRU_BLOCK_SZ

/-- `calc_checksum` from fru.c: sum the bytes into a `uint8_t` and return the
two's-complement negation `(uint8_t)(-(int8_t)checksum)`. -/
def calc_checksum (blk : List Nat) : Nat := (256 - blk.sum % 256) % 256

/-- `cut_tail` from fru.c: strip trailing space characters. -/
def cut_tail (s : List Nat) : List Nat :=
  (s.reverse.dropWhile (fun c => c == 32)).reverse

/-- `LEN_AUTO` (fru.h). -/
def LEN_AUTO : Int := 0

/-- Modelled from the spec: the length-code sentinel forcing the BCD-plus
encoding (`LEN_BCDPLUS`).  Its definition lives in a header that is not in
`src/`; `fru.c` only requires it to be negative and distinct from the other
two sentinels, and tests it first in `fru_get_typelen`. -/
def LEN_BCDPLUS : Int := -1

/-- Modelled from the spec: the length-code sentinel forcing the packed
6-bit ASCII encoding (`LEN_6BITASCII`); negative, tested second. -/
def LEN_6BITASCII : Int := -2

/-- Modelled from the spec: the length-code sentinel forcing the plain text
encoding (`LEN_TEXT`); negative, tested third. -/
def LEN_TEXT : Int := -3

/-- The character-scanning loop of `fru_get_typelen` (fru.c lines 163-195).
`len` is the data length fixed before the loop, `tl` the running `typelen`
state (a `uint8_t`, so every store is reduced `% 256`).  A control byte
other than tab/CR/LF forces binary and stops the scan; with autodetection a
byte outside `0x20..0x5F` widens to text, and a byte outside
digits/space/dash/dot widens BCD-plus to 6-bit ASCII; widening never
narrows. -/
def typelen_scan (autodetect : Bool) (len : Nat) : Nat → List Nat → Nat
  | tl, [] => tl
  | tl, c :: rest =>
    if c < 32 ∧ c ≠ 9 ∧ c ≠ 13 ∧ c ≠ 10 then
      FRU_TYPELEN 0 len % 256
    else if autodetect then
      if tl < FRU_MAKETYPE 3 ∧ (95 < c ∨ c < 32) then
        typelen_scan autodetect len (FRU_TYPELEN 3 len % 256) rest
      else if tl < FRU_MAKETYPE 2 ∧ ¬(48 ≤ c ∧ c ≤ 57) ∧ c ≠ 32 ∧ c ≠ 45 ∧ c ≠ 46 then
        typelen_scan autodetect len (FRU_TYPELEN 2 (FRU_6BIT_LENGTH len) % 256) rest
      else
        typelen_scan autodetect len tl rest
    else
      typelen_scan autodetect len tl rest

/-- `fru_get_typelen` from fru.c.  `data = none` models a NULL pointer.  The
global `autodetect` flag is passed explicitly.  Return values pass through
the `uint8_t` return type, hence the `% 256`.  A negative `len` selects an
explicitly forced text encoding; `len = 0` means auto (NUL-terminated text);
a positive `len` means binary data of that length.  The length check
`len > FRU_FIELDDATALEN(len)` rejects lengths with bits 6-7 set, and the
subsequent `if (typelen)` tests the `uint8_t` truncation of `len`. -/
def fru_get_typelen (len : Int) (data : Option (List Nat)) (autodetect : Bool) : Nat :=
  match data with
  | none => FRU_FIELD_EMPTY
  | some d =>
    if len < 0 then
      if len = LEN_BCDPLUS then FRU_TYPELEN 1 ((d.length + 1) / 2) % 256
      else if len = LEN_6BITASCII then FRU_TYPELEN 2 (FRU_6BIT_LENGTH d.length) % 256
      else if len = LEN_TEXT then FRU_TYPELEN 3 d.length % 256
      else FRU_FIELD_TERMINATOR
    else
      let n : Nat := if len = 0 then d.length else len.toNat
      if n = 0 then FRU_FIELD_EMPTY
      else if FRU_FIELDDATALEN n < n then FRU_FIELD_TERMINATOR
      else if len.toNat % 256 ≠ 0 then FRU_TYPELEN 0 n % 256
      else
        let tl0 := if autodetect then FRU_TYPELEN 1 ((n + 1) / 2) % 256
                   else FRU_TYPELEN 3 n % 256
        typelen_scan autodetect n tl0 d

/-- Character class accepted by the BCD-plus branch of the scan:
digits, space, dash, dot. -/
def isBCDchar (c : Nat) : Prop := (48 ≤ c ∧ c ≤ 57) ∨ c = 32 ∨ c = 45 ∨ c = 46

instance (c : Nat) : Decidable (isBCDchar c) := by
  unfold isBCDchar; infer_instance

/-- `fru_field_t`: a typelen byte followed by the payload bytes. -/
structure FruField where
  typelen : Nat
  data : List Nat
deriving DecidableEq

/-- A field as laid out in memory: the typelen byte then the payload. -/
def fieldBytes (f : FruField) : List Nat := f.typelen :: f.data

/-- Well-formedness of an encoded field: the typelen is a byte, the payload
length matches the length bits, and the payload consists of bytes. -/
def FruFieldWF (f : FruField) : Prop :=
  f.typelen < 256 ∧ f.data.length = FRU_FIELDDATALEN f.typelen ∧ ∀ b ∈ f.data, b < 256

/-- One character prepared by `fru_encode_6bit`:
`char c = (s[i] - ' ') & 0x3F` with two's-complement wraparound. -/
def enc6char (b : Nat) : Nat := ((b + 224) % 256) &&& 63

/-- First packed byte of a 6-bit chunk: case 0 writes `c0`, case 1 ORs in
`(c1 & 0x03) << 6`; the store is a `uint8_t`. -/
def enc6b0 (c0 c1 : Nat) : Nat := (c0 ||| ((c1 &&& 3) <<< 6)) % 256

/-- Second packed byte: case 1 writes `c1 >> 2`, case 2 ORs in `c2 << 4`. -/
def enc6b1 (c1 c2 : Nat) : Nat := ((c1 >>> 2) ||| (c2 <<< 4)) % 256

/-- Third packed byte: case 2 writes `c2 >> 4`, case 3 ORs in `c3 << 2`. -/
def enc6b2 (c2 c3 : Nat) : Nat := ((c2 >>> 4) ||| (c3 <<< 2)) % 256

/-- The packing loop of `fru_encode_6bit` (fru.c lines 222-244), grouped by
chunks of four input characters producing three output bytes; the tail
cases produce the partial final chunk exactly as the loop's `switch` does
when `i` reaches `len` mid-chunk. -/
def fru_encode_6bit_data : List Nat → List Nat
  | [] => []
  | [s0] => [enc6char s0]
  | [s0, s1] => [enc6b0 (enc6char s0) (enc6char s1), enc6char s1 >>> 2]
  | [s0, s1, s2] =>
    [enc6b0 (enc6char s0) (enc6char s1), enc6b1 (enc6char s1) (enc6char s2),
     enc6char s2 >>> 4]
  | s0 :: s1 :: s2 :: s3 :: rest =>
    enc6b0 (enc6char s0) (enc6char s1) :: enc6b1 (enc6char s1) (enc6char s2) ::
    enc6b2 (enc6char s2) (enc6char s3) :: fru_encode_6bit_data rest

/-- `fru_encode_6bit` from fru.c: rejects the field when the 6-bit length
does not fit the length bits (`len6bit > FRU_FIELDDATALEN(len6bit)`),
otherwise builds the field.  Allocation is assumed to succeed. -/
def fru_encode_6bit (s : List Nat) : Option FruField :=
  let len6bit := FRU_6BIT_LENGTH s.length
  if FRU_FIELDDATALEN len6bit < len6bit then none
  else some ⟨FRU_TYPELEN 2 len6bit % 256, fru_encode_6bit_data s⟩

/-- The unpacking loop of `fru_decode_6bit` (fru.c lines 277-304).
`phase` is `i % 4`, the budget counts the remaining iterations up to
`len = FRU_6BIT_FULLLENGTH(len6bit)`, and `bs` is the packed data from the
current `i6` onward (reading past the data yields the field's trailing NUL
byte, value 0).  The loop guard re-reads `s6[i6]` every iteration and stops
on a zero byte; each output store passes through a `uint8_t` before being
masked with `0x3F` and shifted into the ASCII range by adding `' '`. -/
def dec6go : Nat → Nat → List Nat → List Nat
  | _, 0, _ => []
  | phase, n + 1, bs =>
    let b0 := bs.headD 0
    if b0 = 0 then []
    else
      match phase with
      | 0 => (((b0 &&& 63) % 256 &&& 63) + 32) :: dec6go 1 n bs
      | 1 => ((((b0 >>> 6) ||| (bs.tail.headD 0 <<< 2)) % 256 &&& 63) + 32) :: dec6go 2 n bs.tail
      | 2 => ((((b0 >>> 4) ||| (bs.tail.headD 0 <<< 4)) % 256 &&& 63) + 32) :: dec6go 3 n bs.tail
      | _ => (((b0 >>> 2) % 256 &&& 63) + 32) :: dec6go 0 n bs.tail

/-- `fru_decode_6bit` from fru.c: checks the output buffer size, runs the
unpacking loop and strips trailing spaces.  The output buffer is assumed
zero-initialized (as in `fru_decode_custom_fields`), so the written prefix
followed by a NUL is the resulting string. -/
def fru_decode_6bit (field : FruField) (out_len : Nat) : Option (List Nat) :=
  let len6bit := FRU_FIELDDATALEN field.typelen
  let len := FRU_6BIT_FULLLENGTH len6bit
  if out_len < len + 1 then none
  else some (cut_tail (dec6go 0 len field.data))

/-- One BCD-plus nibble as produced by `fru_encode_data`: NUL and space map
to `0xA`, dash to `0xB`, dot to `0xC`, anything else is `data[i] - '0'`
stored in a `uint8_t`. -/
def bcdnib (b : Nat) : Nat :=
  if b = 0 ∨ b = 32 then 10
  else if b = 45 then 11
  else if b = 46 then 12
  else (b + 208) % 256

/-- The BCD-plus packing loop of `fru_encode_data` (fru.c lines 423-439):
byte `j` ends up holding `c[0] << 4 | c[1]` for the character pair
`(2j, 2j+1)`, stored in a `uint8_t`; reading past the string end yields the
NUL terminator (0). -/
def fru_encode_bcdplus_data (dl : Nat) (d : List Nat) : List Nat :=
  (List.range dl).map (fun j => ((bcdnib (d.getD (2 * j) 0) <<< 4) ||| bcdnib (d.getD (2 * j + 1) 0)) % 256)

/-- One decoded BCD-plus character (`fru_decode_bcdplus`): `0xA` is space,
`0xB` dash, `0xC` dot, `0xD`-`0xF` a question mark, digits otherwise. -/
def bcdplus_char (c : Nat) : Nat :=
  if c = 10 then 32
  else if c = 11 then 45
  else if c = 12 then 46
  else if c = 13 ∨ c = 14 ∨ c = 15 then 63
  else c + 48

/-- `fru_decode_bcdplus` from fru.c: checks the output buffer size, then
for `i < 2 * FRU_FIELDDATALEN(typelen)` extracts the nibble
`(data[i/2] >> (i%2 ? 0 : 4)) & 0x0F`, maps it to a character, and finally
strips trailing spaces. -/
def fru_decode_bcdplus (field : FruField) (out_len : Nat) : Option (List Nat) :=
  let dl := FRU_FIELDDATALEN field.typelen
  if out_len < 2 * dl + 1 then none
  else some (cut_tail ((List.range (2 * dl)).map (fun i =>
    bcdplus_char ((field.data.getD (i / 2) 0 >>> (if i % 2 = 1 then 0 else 4)) &&& 15))))

/-- One hex digit as rendered by `fru_decode_binary`:
`c > 9 ? c - 10 + 'A' : c + '0'` (uppercase). -/
def hexchar (c : Nat) : Nat := if 9 < c then c - 10 + 65 else c + 48

/-- The writes performed by `fru_decode_binary` (fru.c lines 370-390) into
the output buffer, as (index, value) pairs: two uppercase hex characters at
`2i` and `2i+1` for every payload byte, and after the loop (when `i = n`)
the write `out[i * 2 + 1] = '0'`, i.e. character `'0'` (0x30) at index
`2n + 1`.  Returns `none` when the buffer check
`2n + 1 > out_len` fails. -/
def fru_decode_binary_writes (field : FruField) (out_len : Nat) : Option (List (Nat × Nat)) :=
  let n := FRU_FIELDDATALEN field.typelen
  if out_len < 2 * n + 1 then none
  else some ((((List.range n).map (fun i =>
      [(2 * i, hexchar ((field.data.getD i 0 &&& 240) >>> 4)),
       (2 * i + 1, hexchar (field.data.getD i 0 &&& 15))])).flatten)
    ++ [(n * 2 + 1, 48)])

/-- `field_type_t` from the repository headers, in the order fixed by the
`enc_names` initializer in fru.c. -/
inductive field_type
  | auto
  | binary
  | bcdplus
  | sixbitascii
  | text
deriving DecidableEq

/-- The `len` code passed to `fru_encode_data` for a declared field type in
`fru_create_info_area` (fru.c lines 605-627); the `default` case uses
`LEN_AUTO`. -/
def field_type_len : field_type → Int
  | field_type.bcdplus => LEN_BCDPLUS
  | field_type.sixbitascii => LEN_6BITASCII
  | field_type.text => LEN_TEXT
  | _ => LEN_AUTO

/-- `fru_encode_data` from fru.c: infer the typelen, fail on the terminator
sentinel, then dispatch to the 6-bit encoder, the BCD-plus packer, or a
plain `memcpy` of `FRU_FIELDDATALEN(typelen)` bytes.  Allocation is assumed
to succeed. -/
def fru_encode_data (len : Int) (data : Option (List Nat)) (autodetect : Bool) : Option FruField :=
  let typelen := fru_get_typelen len data autodetect
  if typelen = FRU_FIELD_TERMINATOR then none
  else if FRU_TYPE typelen = 2 then fru_encode_6bit (data.getD [])
  else
    let d := data.getD []
    let dl := FRU_FIELDDATALEN typelen
    if FRU_TYPE typelen = 1 then some ⟨typelen, fru_encode_bcdplus_data dl d⟩
    else some ⟨typelen, (List.range dl).map (fun j => d.getD j 0)⟩

/-- The mandatory-field encoding loop of `fru_create_info_area` (fru.c
lines 601-630): a binary declared type aborts with `EINVAL`, every other
type selects its `len` code and the string is encoded; any failure aborts
the whole build. -/
def encode_strings : List (field_type × List Nat) → Bool → Option (List FruField)
  | [], _ => some []
  | (t, s) :: rest, ad =>
    if t = field_type.binary then none
    else
      match fru_encode_data (field_type_len t) (some s) ad with
      | none => none
      | some f =>
        match encode_strings rest ad with
        | none => none
        | some fs => some (f :: fs)

/-- `FRU_AREA_HAS_SIZE(t)`: internal-use `<` t `<` multirecord. -/
def FRU_AREA_HAS_SIZE (t : Nat) : Prop := 0 < t ∧ t < 4

instance (t : Nat) : Decidable (FRU_AREA_HAS_SIZE t) := by
  unfold FRU_AREA_HAS_SIZE; infer_instance

/-- `FRU_AREA_HAS_DATE(t)`: only the board info area. -/
def FRU_AREA_HAS_DATE (t : Nat) : Prop := t = 2

instance (t : Nat) : Decidable (FRU_AREA_HAS_DATE t) := by
  unfold FRU_AREA_HAS_DATE; infer_instance

/-- `FRU_AREA_IS_GENERIC(t) = FRU_AREA_HAS_SIZE(t)`. -/
def FRU_AREA_IS_GENERIC (t : Nat) : Prop := FRU_AREA_HAS_SIZE t

instance (t : Nat) : Decidable (FRU_AREA_IS_GENERIC t) := by
  unfold FRU_AREA_IS_GENERIC; infer_instance

/-- `fru_create_info_area` from fru.c (lines 542-674).  `atype` is the area
type (1 chassis, 2 board, 3 product), `tv` the manufacturing date already
converted to FRU minutes (the `timeval`-to-minutes conversion via `mktime`
is environmental; `none` models a NULL `tv` pointer, which is an `EFAULT`
error for the board area).  `strings` are the mandatory-field strings with
their declared types, `customs` the pre-encoded custom fields.  The body is
header, fields, terminator and zero padding; the final byte is
`fru_area_checksum` computed over the full `FRU_BYTES(blocks)` buffer in
which the checksum slot still holds 0.  The `blocks` header byte is a
`uint8_t` store. -/
def fru_create_info_area (atype langtype : Nat) (tv : Option Nat)
    (strings : List (field_type × List Nat)) (customs : List FruField)
    (autodetect : Bool) : Option (List Nat) :=
  if ¬FRU_AREA_IS_GENERIC atype then none
  else
    let headerlen := if FRU_AREA_HAS_DATE atype then 6 else 3
    let hdrdate : Option (List Nat) :=
      if FRU_AREA_HAS_DATE atype then
        match tv with
        | none => none
        | some fru_time =>
          some [fru_time &&& 255, (fru_time >>> 8) &&& 255, (fru_time >>> 16) &&& 255]
      else some []
    match hdrdate with
    | none => none
    | some datebytes =>
      match encode_strings strings autodetect with
      | none => none
      | some mandatory =>
        let fields := mandatory ++ customs
        let totalsize := 2 + headerlen + (fields.map (fun f => FRU_FIELDSIZE f.typelen)).sum
        let blocks := FRU_BLOCKS totalsize % 256
        let padding := FRU_BYTES blocks - totalsize
        let body := [1, blocks, langtype % 256] ++ datebytes
          ++ (fields.map fieldBytes).flatten ++ [FRU_FIELD_TERMINATOR]
          ++ List.replicate padding 0
        some (body ++ [calc_checksum (body ++ [0])])

/-- `fru_area_t` from fru.h: declared area type, size in blocks, and the
area data (`none` models a NULL pointer). -/
structure fru_area_t where
  atype : Int
  blocks : Nat
  data : Option (List Nat)

/-- The five area-offset bytes of the FRU container header. -/
structure fru_header_t where
  internal : Nat
  chassis : Nat
  board : Nat
  product : Nat
  multirec : Nat
deriving DecidableEq

/-- Store into the header offset slot selected by `area_offsets[atype]`. -/
def set_area_offset (h : fru_header_t) (idx v : Nat) : fru_header_t :=
  match idx with
  | 0 => ⟨v, h.chassis, h.board, h.product, h.multirec⟩
  | 1 => ⟨h.internal, v, h.board, h.product, h.multirec⟩
  | 2 => ⟨h.internal, h.chassis, v, h.product, h.multirec⟩
  | 3 => ⟨h.internal, h.chassis, h.board, v, h.multirec⟩
  | _ => ⟨h.internal, h.chassis, h.board, h.product, v⟩

/-- `FRU_IS_ATYPE_VALID(t)` as written in fru.h, read at type `int`:
`t >= FRU_AREA_NOT_PRESENT && t < FRU_MAX_AREAS`. -/
def FRU_IS_ATYPE_VALID (t : Int) : Bool := decide (-1 ≤ t ∧ t < 5)

/-- The first loop of `fru_create` (fru.c lines 1197-1227).  `atype` is the
local `uint8_t atype = area[i].atype`, so `FRU_AREA_NOT_PRESENT` (-1)
becomes 255; after integer promotion `FRU_IS_ATYPE_VALID(atype)` degenerates
to `atype < 5` because `atype >= -1` is vacuous for an unsigned byte.  An
area is absent when its data pointer is NULL, when a non-sized area has no
block count, or when the `blocks` header byte of the data is zero; absent
areas get offset 0, present ones get the running block offset (a `uint8_t`
store). -/
def fru_create_go : Nat → List fru_area_t → fru_header_t → Nat → Option (fru_header_t × Nat)
  | _, [], hdr, tb => some (hdr, tb)
  | i, a :: rest, hdr, tb =>
    let atype := (a.atype % 256).toNat
    if ¬(atype < 5) ∨ (atype ≠ 255 ∧ atype ≠ i) then none
    else
      match a.data with
      | none => fru_create_go (i + 1) rest (set_area_offset hdr atype 0) tb
      | some d =>
        if (¬FRU_AREA_HAS_SIZE atype ∧ a.blocks = 0) ∨ d.getD 1 0 % 256 = 0 then
          fru_create_go (i + 1) rest (set_area_offset hdr atype 0) tb
        else
          let blocks := if a.blocks = 0 then d.getD 1 0 % 256 else a.blocks
          fru_create_go (i + 1) rest (set_area_offset hdr atype (tb % 256)) (tb + blocks)

/-- `fru_create` from fru.c (lines 1182-1258): run the offset-assignment
loop starting from one header block, then compute the header checksum over
the 8 header bytes (with the checksum slot still 0).  The second loop only
copies area bytes to their assigned offsets; it does not change the header
or the reported size, so the model returns the header offsets, the header
checksum byte, and the output of `*size` (total blocks). -/
def fru_create (areas : List fru_area_t) : Option (fru_header_t × Nat × Nat) :=
  match fru_create_go 0 areas ⟨0, 0, 0, 0, 0⟩ (FRU_BLOCKS 8) with
  | none => none
  | some (hdr, tb) =>
    some (hdr, calc_checksum [1, hdr.internal, hdr.chassis, hdr.board, hdr.product, hdr.multirec, 0, 0], tb)

/-- `find_fru_header` from fru.c: size, version/reserved/pad and header
checksum validation.  Byte 0 packs `ver` in the low nibble and `rsvd` in
the high nibble. -/
def find_fru_header (buffer : List Nat) (size : Nat) : Bool :=
  if size < 8 then false
  else if buffer.getD 0 0 % 16 ≠ 1 ∨ buffer.getD 0 0 / 16 % 16 ≠ 0 ∨ buffer.getD 6 0 ≠ 0 then false
  else if buffer.getD 7 0 ≠ calc_checksum (buffer.take 7) then false
  else true

/-- The `AREA(NAME)` macro body from fru.c (lines 1277-1303): validate the
container header, read the area offset byte at `idx` (2 chassis, 3 board,
4 product), reject offset 0 and `offset + 3 > size`, require the area's
version byte to be 1, bound `FRU_BYTES(offset) + FRU_BYTES(blocks)` by
`size`, and check that the last area byte equals the checksum of the first
`FRU_BYTES(blocks) - 1` bytes.  On success the area slice is returned. -/
def find_fru_area (buffer : List Nat) (size : Nat) (idx : Nat) : Option (List Nat) :=
  if ¬find_fru_header buffer size then none
  else
    let o := buffer.getD idx 0
    if o = 0 then none
    else if size < o + 3 then none
    else if buffer.getD (FRU_BYTES o) 0 ≠ 1 then none
    else
      let blocks := buffer.getD (FRU_BYTES o + 1) 0
      if size < FRU_BYTES o + FRU_BYTES blocks then none
      else
        let area := (buffer.drop (FRU_BYTES o)).take (FRU_BYTES blocks)
        if area.getLast? ≠ some (calc_checksum (area.take (FRU_BYTES blocks - 1))) then none
        else some area

/-- `find_fru_chassis_area`: the chassis offset lives at header byte 2. -/
def find_fru_chassis_area (buffer : List Nat) (size : Nat) : Option (List Nat) :=
  find_fru_area buffer size 2

/-- `find_fru_board_area`: the board offset lives at header byte 3. -/
def find_fru_board_area (buffer : List Nat) (size : Nat) : Option (List Nat) :=
  find_fru_area buffer size 3

/-- `find_fru_product_area`: the product offset lives at header byte 4. -/
def find_fru_product_area (buffer : List Nat) (size : Nat) : Option (List Nat) :=
  find_fru_area buffer size 4

/-- C `isxdigit` on a byte value. -/
def c_isxdigit (c : Nat) : Prop :=
  (48 ≤ c ∧ c ≤ 57) ∨ (65 ≤ c ∧ c ≤ 70) ∨ (97 ≤ c ∧ c ≤ 102)

instance (c : Nat) : Decidable (c_isxdigit c) := by
  unfold c_isxdigit; infer_instance

/-- C `toupper` on a byte value. -/
def c_toupper (c : Nat) : Nat := if 97 ≤ c ∧ c ≤ 122 then c - 32 else c

/-- The hex-digit loop of `fru_mr_uuid2rec` (fru.c lines 985-1013).  The
index `i` is the function's `static size_t i`, so its value persists across
calls; `raw` is the 16-byte on-stack `uuid.raw` union member, whose initial
contents are whatever the stack held.  Writes with `i / 2 ≥ 16` land
outside the union in the C code (undefined behavior); in the model an
out-of-range `List.set` leaves the list unchanged, which in particular
means the 16 modelled bytes are not written.  Dashes are skipped, a
non-hex-digit character aborts with `EINVAL`. -/
def uuid_loop : List Nat → Nat → List Nat → Option (List Nat × Nat)
  | [], i, raw => some (raw, i)
  | c :: rest, i, raw =>
    if c = 45 then uuid_loop rest i raw
    else if ¬c_isxdigit c then none
    else
      let v := if c_toupper c < 65 then c_toupper c - 48 else c_toupper c - 65 + 10
      let raw' := if i % 2 = 0 then raw.set (i / 2) ((v <<< 4) % 256)
                  else raw.set (i / 2) ((raw.getD (i / 2) 0 ||| v) % 256)
      uuid_loop rest (i + 1) raw'

/-- The SMBIOS byte-order fixup of `fru_mr_uuid2rec`:
`htole32(be32toh(time_low))` etc. reverses the first three fields on any
host, leaving the final 8 bytes as stored. -/
def uuid_fix_endian (raw : List Nat) : List Nat :=
  [raw.getD 3 0, raw.getD 2 0, raw.getD 1 0, raw.getD 0 0,
   raw.getD 5 0, raw.getD 4 0, raw.getD 7 0, raw.getD 6 0] ++ raw.drop 8

/-- `fru_mr_uuid2rec` from fru.c (lines 946-1029), with the persistent
static index `i0` and the uninitialized stack bytes `raw0` made explicit.
The record is `[type_id = 3, eol_ver = 2, len = 17, rec_checksum,
hdr_checksum]` followed by the subtype byte 7 and the 16 UUID bytes;
`rec_checksum` covers the 17 payload bytes and `hdr_checksum` the first 4
header bytes.  Returns the record bytes and the static index left for the
next call. -/
def fru_mr_uuid2rec (str : List Nat) (i0 : Nat) (raw0 : List Nat) : Option (List Nat × Nat) :=
  if str.length ≠ 36 ∧ str.length ≠ 32 then none
  else
    match uuid_loop str i0 raw0 with
    | none => none
    | some (raw, i1) =>
      let payload := 7 :: uuid_fix_endian raw
      let rc := calc_checksum payload
      let hc := calc_checksum [3, 2, 17, rc]
      some ([3, 2, 17, rc, hc] ++ payload, i1)

/-- `fru_mr_rec_t` with its `fru_mr_header_t`: record type, end-of-list
flag and version byte, payload length, payload checksum, header checksum,
payload bytes. -/
structure fru_mr_rec_t where
  type_id : Nat
  eol_ver : Nat
  len : Nat
  rec_checksum : Nat
  hdr_checksum : Nat
  data : List Nat
deriving DecidableEq

/-- The size-accumulation loop of `fru_mr_area` (fru.c lines 1083-1087):
walk the record list while the node and its record exist and the record's
header length is non-zero, adding `sizeof(fru_mr_header_t) = 5` plus the
payload length for each. -/
def fru_mr_area_size : List (Option fru_mr_rec_t) → Nat
  | [] => 0
  | none :: _ => 0
  | some r :: rest => if r.len = 0 then 0 else (5 + r.len) + fru_mr_area_size rest

/-- The packing loop of `fru_mr_area` (fru.c lines 1096-1110): copy each
record (5 header bytes then `len` payload bytes); for the record on the
last list node, set the end-of-list bit in `eol_ver` first and then
recompute the header checksum over the first 4 header bytes. -/
def fru_mr_pack : List (Option fru_mr_rec_t) → List Nat
  | [] => []
  | none :: _ => []
  | some r :: rest =>
    if r.len = 0 then []
    else
      let hdrbytes :=
        if rest.isEmpty then
          let eol := (r.eol_ver ||| 128) % 256
          [r.type_id, eol, r.len, r.rec_checksum, calc_checksum [r.type_id, eol, r.len, r.rec_checksum]]
        else [r.type_id, r.eol_ver, r.len, r.rec_checksum, r.hdr_checksum]
      (hdrbytes ++ (List.range r.len).map (fun j => r.data.getD j 0)) ++ fru_mr_pack rest

/-- `fru_mr_area` from fru.c (lines 1076-1113): `*total` (here `total0`) is
only ever accumulated into (`*total += ...`), never assigned, before being
used as the allocation size; when the allocation fails the function stores
0 into `*total` and returns NULL.  The result is the area bytes (if
allocated) and the final value of `*total`. -/
def fru_mr_area (reclist : List (Option fru_mr_rec_t)) (total0 : Nat) (allocOk : Bool) :
    Option (List Nat) × Nat :=
  let total := total0 + fru_mr_area_size reclist
  if allocOk then (some (fru_mr_pack reclist), total) else (none, 0)

theorem FRU_FIELDDATALEN_lt_256 : ∀ x, x < 256 → FRU_FIELDDATALEN x = x % 64 := by decide

theorem FRU_TYPELEN_eq : ∀ t, t < 4 → ∀ l, l < 256 → FRU_TYPELEN t l = 64 * t + l % 64 := by
  decide

theorem FRU_TYPE_64 : ∀ x, x < 64 → FRU_TYPE (64 + x) = 1 := by decide

theorem FRU_TYPE_128 : ∀ x, x < 64 → FRU_TYPE (128 + x) = 2 := by decide

theorem FRU_TYPE_192 : ∀ x, x < 64 → FRU_TYPE (192 + x) = 3 := by decide

theorem FRU_TYPE_low : ∀ x, x < 64 → FRU_TYPE x = 0 := by decide

theorem FRU_FIELDDATALEN_64 : ∀ x, x < 64 → FRU_FIELDDATALEN (64 + x) = x := by decide

theorem FRU_FIELDDATALEN_128 : ∀ x, x < 64 → FRU_FIELDDATALEN (128 + x) = x := by decide

theorem FRU_FIELDDATALEN_192 : ∀ x, x < 64 → FRU_FIELDDATALEN (192 + x) = x := by decide

theorem FRU_FIELDDATALEN_low : ∀ x, x < 64 → FRU_FIELDDATALEN x = x := by decide

theorem and63_small : ∀ x, x < 64 → ((x &&& 63) % 256 &&& 63) = x := by decide

theorem FRU_MAKETYPE_two : FRU_MAKETYPE 2 = 128 := rfl

theorem FRU_MAKETYPE_three : FRU_MAKETYPE 3 = 192 := rfl

theorem FRU_FIELD_TERMINATOR_eq : FRU_FIELD_TERMINATOR = 193 := rfl

theorem FRU_FIELD_EMPTY_eq : FRU_FIELD_EMPTY = 192 := rfl

/-- Once the scan state has widened to 6-bit ASCII, characters in the
printable 6-bit range never change it. -/
theorem typelen_scan_six_stable (len x : Nat) (hx : x < 64) :
    ∀ d : List Nat, (∀ c ∈ d, 32 ≤ c ∧ c ≤ 95) →
    typelen_scan true len (128 + x) d = 128 + x := by
  intro d
  induction d with
  | nil => intro _; rfl
  | cons c rest ih =>
    intro h
    obtain ⟨hc1, hc2⟩ := h c (by simp)
    rw [typelen_scan]
    rw [if_neg (by omega)]
    rw [if_pos rfl]
    rw [if_neg (by rw [FRU_MAKETYPE_three]; omega)]
    rw [if_neg (by rw [FRU_MAKETYPE_two]; omega)]
    exact ih (fun b hb => h b (by simp [hb]))

/-- A scan over digits/space/dash/dot characters keeps the initial BCD-plus
state. -/
theorem typelen_scan_bcd_all (len x : Nat) (hx : x < 64) :
    ∀ d : List Nat, (∀ c ∈ d, isBCDchar c) →
    typelen_scan true len (64 + x) d = 64 + x := by
  intro d
  induction d with
  | nil => intro _; rfl
  | cons c rest ih =>
    intro h
    have hc := h c (by simp)
    unfold isBCDchar at hc
    rw [typelen_scan]
    rw [if_neg (by omega)]
    rw [if_pos rfl]
    rw [if_neg (by rw [FRU_MAKETYPE_three]; omega)]
    rw [if_neg (by rw [FRU_MAKETYPE_two]; omega)]
    exact ih (fun b hb => h b (by simp [hb]))

/-- A scan from the BCD-plus state over printable 6-bit-range characters at
least one of which is outside digits/space/dash/dot widens exactly to the
6-bit ASCII state. -/
theorem typelen_scan_bcd_to_six (len x : Nat) (hx : x < 64)
    (h6 : FRU_6BIT_LENGTH len < 64) :
    ∀ d : List Nat, (∀ c ∈ d, 32 ≤ c ∧ c ≤ 95) → (∃ c ∈ d, ¬isBCDchar c) →
    typelen_scan true len (64 + x) d = 128 + FRU_6BIT_LENGTH len := by
  intro d
  induction d with
  | nil => rintro _ ⟨c, hc, _⟩; cases hc
  | cons c rest ih =>
    intro h hex
    obtain ⟨hc1, hc2⟩ := h c (by simp)
    rw [typelen_scan]
    rw [if_neg (by omega)]
    rw [if_pos rfl]
    rw [if_neg (by rw [FRU_MAKETYPE_three]; omega)]
    by_cases hbcd : isBCDchar c
    · rw [if_neg (by rw [FRU_MAKETYPE_two]; unfold isBCDchar at hbcd; omega)]
      apply ih (fun b hb => h b (by simp [hb]))
      obtain ⟨w, hw, hwb⟩ := hex
      rcases List.mem_cons.mp hw with hceq | hwrest
      · exact absurd hbcd (hceq ▸ hwb)
      · exact ⟨w, hwrest, hwb⟩
    · rw [if_pos (by rw [FRU_MAKETYPE_two]; unfold isBCDchar at hbcd; push_neg at hbcd; omega)]
      have htl : FRU_TYPELEN 2 (FRU_6BIT_LENGTH len) % 256 = 128 + FRU_6BIT_LENGTH len := by
        rw [FRU_TYPELEN_eq 2 (by omega) _ (by omega)]
        rw [Nat.mod_eq_of_lt (by omega)]
        omega
      rw [htl]
      exact typelen_scan_six_stable len _ h6 rest (fun b hb => h b (by simp [hb]))

/-- The scan result is the initial state or one of the three widened
states. -/
theorem typelen_scan_mem (len : Nat) (ad : Bool) :
    ∀ (d : List Nat) (tl : Nat),
    typelen_scan ad len tl d = tl ∨
    typelen_scan ad len tl d = FRU_TYPELEN 0 len % 256 ∨
    typelen_scan ad len tl d = FRU_TYPELEN 3 len % 256 ∨
    typelen_scan ad len tl d = FRU_TYPELEN 2 (FRU_6BIT_LENGTH len) % 256 := by
  intro d
  induction d with
  | nil => intro tl; left; rfl
  | cons c rest ih =>
    intro tl
    rw [typelen_scan]
    by_cases hbin : c < 32 ∧ c ≠ 9 ∧ c ≠ 13 ∧ c ≠ 10
    · rw [if_pos hbin]; tauto
    · rw [if_neg hbin]
      cases ad with
      | false => simpa using ih tl
      | true =>
        rw [if_pos rfl]
        by_cases htext : tl < FRU_MAKETYPE 3 ∧ (95 < c ∨ c < 32)
        · rw [if_pos htext]
          rcases ih (FRU_TYPELEN 3 len % 256) with h | h | h | h <;> tauto
        · rw [if_neg htext]
          by_cases hsix : tl < FRU_MAKETYPE 2 ∧ ¬(48 ≤ c ∧ c ≤ 57) ∧ c ≠ 32 ∧ c ≠ 45 ∧ c ≠ 46
          · rw [if_pos hsix]
            rcases ih (FRU_TYPELEN 2 (FRU_6BIT_LENGTH len) % 256) with h | h | h | h <;> tauto
          · rw [if_neg hsix]; exact ih tl

/-- With auto length and a string of 1 to 63 bytes, `fru_get_typelen` runs
the character scan from the BCD-plus (autodetect) or text (no autodetect)
start state. -/
theorem fru_get_typelen_auto_eq (d : List Nat) (ad : Bool) (h1 : d.length ≠ 0)
    (h63 : d.length ≤ 63) :
    fru_get_typelen 0 (some d) ad =
      typelen_scan ad d.length (if ad then 64 + (d.length + 1) / 2 else 192 + d.length) d := by
  have e1 : FRU_TYPELEN 1 ((d.length + 1) / 2) % 256 = 64 + (d.length + 1) / 2 := by
    have hm : (d.length + 1) / 2 % 64 = (d.length + 1) / 2 := Nat.mod_eq_of_lt (by omega)
    rw [FRU_TYPELEN_eq 1 (by omega) _ (by omega), hm, Nat.mod_eq_of_lt (by omega)]
  have e3 : FRU_TYPELEN 3 d.length % 256 = 192 + d.length := by
    have hm : d.length % 64 = d.length := Nat.mod_eq_of_lt (by omega)
    rw [FRU_TYPELEN_eq 3 (by omega) _ (by omega), hm, Nat.mod_eq_of_lt (by omega)]
  have hdl : ¬FRU_FIELDDATALEN d.length < d.length := by
    rw [FRU_FIELDDATALEN_low _ (by omega)]; omega
  simp only [fru_get_typelen]
  rw [if_neg (by norm_num)]
  simp only [if_pos rfl, reduceIte, h1, hdl]
  norm_num [h1, hdl, e1, e3]

/-- With auto length and a raw string longer than 63 bytes (up to 255),
`fru_get_typelen` returns the terminator sentinel before any scan. -/
theorem fru_get_typelen_auto_toolong (d : List Nat) (ad : Bool) (h64 : 64 ≤ d.length)
    (h255 : d.length ≤ 255) :
    fru_get_typelen 0 (some d) ad = FRU_FIELD_TERMINATOR := by
  have hdl : FRU_FIELDDATALEN d.length < d.length := by
    rw [FRU_FIELDDATALEN_lt_256 _ (by omega)]; omega
  simp only [fru_get_typelen]
  rw [if_neg (by norm_num)]
  norm_num [show d.length ≠ 0 by omega, hdl]

/-- Bits 6 and 7 of a natural number are determined by its residue mod 256. -/
theorem and192_mod (x : Nat) : x &&& 192 = x % 256 &&& 192 := by
  have h256 : (256 : Nat) = 2 ^ 8 := by norm_num
  rw [h256]
  apply Nat.eq_of_testBit_eq
  intro i
  rw [Nat.testBit_and, Nat.testBit_and, Nat.testBit_mod_two_pow]
  by_cases hi : i < 8
  · simp [hi]
  · have h192 : (192 : Nat).testBit i = false :=
      Nat.testBit_lt_two_pow (by
        calc (192 : Nat) < 2 ^ 8 := by norm_num
        _ ≤ 2 ^ i := Nat.pow_le_pow_right (by norm_num) (by omega))
    simp [h192]

theorem and192_small : ∀ r, r < 256 → r &&& 192 = r - r % 64 := by decide

/-- `FRU_FIELDDATALEN` clears only bits 6 and 7: it keeps the bits above 7
and the bits below 6 of an arbitrary length. -/
theorem FRU_FIELDDATALEN_eq_gen (x : Nat) :
    FRU_FIELDDATALEN x = 256 * (x / 256) + x % 64 := by
  unfold FRU_FIELDDATALEN
  rw [and192_mod, and192_small _ (Nat.mod_lt x (by norm_num))]
  have h1 : x % 256 % 64 = x % 64 := Nat.mod_mod_of_dvd x (by norm_num)
  have h2 : 256 * (x / 256) + x % 256 = x := Nat.div_add_mod x 256
  omega

theorem or_mod_256 (a b : Nat) : (a ||| b) % 256 = a % 256 ||| b % 256 := by
  have h256 : (256 : Nat) = 2 ^ 8 := by norm_num
  rw [h256]
  apply Nat.eq_of_testBit_eq
  intro i
  rw [Nat.testBit_mod_two_pow, Nat.testBit_or, Nat.testBit_or,
    Nat.testBit_mod_two_pow, Nat.testBit_mod_two_pow]
  exact Bool.and_or_distrib_left _ _ _

theorem or_type_small : ∀ t, t < 4 → ∀ m, m < 64 → (t <<< 6) % 256 ||| m = 64 * t + m := by
  decide

/-- The `uint8_t` truncation of any `FRU_TYPELEN(t, l)`: the type bits plus
the length reduced mod 64, for arbitrary (unbounded) `l`. -/
theorem FRU_TYPELEN_mod (t l : Nat) (ht : t < 4) :
    FRU_TYPELEN t l % 256 = 64 * t + l % 64 := by
  unfold FRU_TYPELEN FRU_MAKETYPE
  rw [or_mod_256]
  have hl : FRU_FIELDDATALEN l % 256 = l % 64 := by
    rw [FRU_FIELDDATALEN_eq_gen]
    omega
  rw [hl]
  exact or_type_small t ht _ (Nat.mod_lt l (by norm_num))

/-- The auto-length too-long check `len > FRU_FIELDDATALEN(len)` fires
exactly when bits 6-7 of the raw length are set, i.e. when the length is at
least 64 mod 256; this is the sentinel direction, for arbitrary lengths. -/
theorem fru_get_typelen_auto_toolong_gen (d : List Nat) (ad : Bool)
    (h : 64 ≤ d.length % 256) :
    fru_get_typelen 0 (some d) ad = FRU_FIELD_TERMINATOR := by
  have hdl : FRU_FIELDDATALEN d.length < d.length := by
    rw [FRU_FIELDDATALEN_eq_gen]
    omega
  simp only [fru_get_typelen]
  rw [if_neg (by norm_num)]
  norm_num [show d.length ≠ 0 by omega, hdl]

/-- With auto length, a nonempty string, and bits 6-7 of the raw length
clear, `fru_get_typelen` runs the character scan from the BCD-plus
(autodetect) or text (no autodetect) start state; valid for arbitrary
lengths, including 256..319 where the too-long check silently passes. -/
theorem fru_get_typelen_auto_eq_gen (d : List Nat) (ad : Bool) (h1 : d.length ≠ 0)
    (h63 : d.length % 256 < 64) :
    fru_get_typelen 0 (some d) ad =
      typelen_scan ad d.length
        (if ad then FRU_TYPELEN 1 ((d.length + 1) / 2) % 256
         else FRU_TYPELEN 3 d.length % 256) d := by
  have hdl : ¬FRU_FIELDDATALEN d.length < d.length := by
    rw [FRU_FIELDDATALEN_eq_gen]
    omega
  simp only [fru_get_typelen]
  rw [if_neg (by norm_num)]
  simp only [if_pos rfl, reduceIte, h1, hdl]
  norm_num [h1, hdl]

/-- C4 (amended).  The too-long failure of `fru_get_typelen` is decided by
bits 6-7 of the raw input length, not by the encoded payload size: with
auto length the terminator sentinel is returned iff the raw length is at
least 64 modulo 256 (so lengths 256..319, 512..575, ... silently pass the
check), except that a string whose length is 1 modulo 64 and whose
inferred encoding is text also collides with the sentinel value; the
explicitly forced BCD-plus/6-bit/text encodings perform no length check
at all and store their computed payload length reduced modulo 64. -/
theorem fru_get_typelen_length_behavior (d : List Nat) (ad : Bool) :
    (64 ≤ d.length % 256 → fru_get_typelen 0 (some d) ad = FRU_FIELD_TERMINATOR)
    ∧ (d.length % 256 < 64 →
        (fru_get_typelen 0 (some d) ad = FRU_FIELD_TERMINATOR ↔
          d.length % 64 = 1 ∧ FRU_TYPE (fru_get_typelen 0 (some d) ad) = 3))
    ∧ fru_get_typelen LEN_BCDPLUS (some d) ad = 64 + ((d.length + 1) / 2) % 64
    ∧ fru_get_typelen LEN_6BITASCII (some d) ad = 128 + FRU_6BIT_LENGTH d.length % 64
    ∧ fru_get_typelen LEN_TEXT (some d) ad = 192 + d.length % 64 := by
  refine ⟨fun h64 => fru_get_typelen_auto_toolong_gen d ad h64, ?_, ?_, ?_, ?_⟩
  · intro h63
    by_cases h0 : d.length = 0
    · have hd : d = [] := List.length_eq_zero.mp h0
      subst hd
      rw [show fru_get_typelen 0 (some []) ad = FRU_FIELD_EMPTY from rfl]
      constructor
      · intro h; exact absurd h (by decide)
      · rintro ⟨h1, -⟩; exact absurd h1 (by decide)
    · rw [fru_get_typelen_auto_eq_gen d ad h0 h63, FRU_FIELD_TERMINATOR_eq]
      have hm64 : d.length % 64 < 64 := Nat.mod_lt _ (by norm_num)
      have e0 : FRU_TYPELEN 0 d.length % 256 = d.length % 64 := by
        rw [FRU_TYPELEN_mod 0 _ (by norm_num)]; omega
      have e1 : FRU_TYPELEN 1 ((d.length + 1) / 2) % 256 = 64 + ((d.length + 1) / 2) % 64 := by
        rw [FRU_TYPELEN_mod 1 _ (by norm_num)]
      have e2 : FRU_TYPELEN 2 (FRU_6BIT_LENGTH d.length) % 256
          = 128 + FRU_6BIT_LENGTH d.length % 64 := by
        rw [FRU_TYPELEN_mod 2 _ (by norm_num)]
      have e3 : FRU_TYPELEN 3 d.length % 256 = 192 + d.length % 64 := by
        rw [FRU_TYPELEN_mod 3 _ (by norm_num)]
      have hb1 : ((d.length + 1) / 2) % 64 < 64 := Nat.mod_lt _ (by norm_num)
      have hb2 : FRU_6BIT_LENGTH d.length % 64 < 64 := Nat.mod_lt _ (by norm_num)
      rcases typelen_scan_mem d.length ad d
          (if ad then FRU_TYPELEN 1 ((d.length + 1) / 2) % 256
           else FRU_TYPELEN 3 d.length % 256) with h | h | h | h
      · cases ad with
        | true =>
          rw [if_pos rfl] at h
          rw [if_pos rfl, h, e1, FRU_TYPE_64 _ hb1]
          omega
        | false =>
          rw [if_neg (by simp)] at h
          rw [if_neg (by simp), h, e3, FRU_TYPE_192 _ hm64]
          omega
      · rw [h, e0, FRU_TYPE_low _ hm64]; omega
      · rw [h, e3, FRU_TYPE_192 _ hm64]; omega
      · rw [h, e2, FRU_TYPE_128 _ hb2]; omega
  · simp only [fru_get_typelen, LEN_BCDPLUS]
    rw [if_pos (by norm_num), if_pos trivial, FRU_TYPELEN_mod 1 _ (by norm_num)]
  · simp only [fru_get_typelen, LEN_6BITASCII, LEN_BCDPLUS]
    rw [if_pos (by norm_num), if_neg (by norm_num), if_pos trivial,
      FRU_TYPELEN_mod 2 _ (by norm_num)]
  · simp only [fru_get_typelen, LEN_TEXT, LEN_BCDPLUS, LEN_6BITASCII]
    rw [if_pos (by norm_num), if_neg (by norm_num), if_neg (by norm_num), if_pos trivial,
      FRU_TYPELEN_mod 3 _ (by norm_num)]

/-- C4 witness: the amended length-behavior theorem instantiated at a
320-digit string (length 64 mod 256: sentinel) and a 256-digit string
(length 0 mod 256: the too-long check silently passes and the result is
not the sentinel). -/
theorem fru_get_typelen_length_behavior_witness :
    64 ≤ (List.replicate 320 49 : List Nat).length % 256
    ∧ fru_get_typelen 0 (some (List.replicate 320 49)) true = FRU_FIELD_TERMINATOR
    ∧ (List.replicate 256 49 : List Nat).length % 256 < 64
    ∧ fru_get_typelen 0 (some (List.replicate 256 49)) true ≠ FRU_FIELD_TERMINATOR := by
  refine ⟨by decide, (fru_get_typelen_length_behavior (List.replicate 320 49) true).1 (by decide),
    by decide, fun hc => ?_⟩
  have h := ((fru_get_typelen_length_behavior (List.replicate 256 49) true).2.1 (by decide)).mp hc
  exact absurd h.1 (by decide)

/-- C4 counterexample: the 1-byte string "a" would encode to a 1-byte text
payload (well under 63 bytes) yet `fru_get_typelen` returns the terminator
sentinel for it, and a 128-digit string forced to BCD-plus would encode to
a 64-byte payload (over the limit) yet `fru_get_typelen` succeeds with a
wrapped length instead of the sentinel. -/
theorem fru_get_typelen_toolong_cex :
    fru_get_typelen 0 (some [97]) true = FRU_FIELD_TERMINATOR
    ∧ ([97] : List Nat).length = 1
    ∧ fru_get_typelen LEN_BCDPLUS (some (List.replicate 128 48)) true = 64
    ∧ ((List.replicate 128 48 : List Nat).length + 1) / 2 = 64
    ∧ (64 : Nat) ≠ FRU_FIELD_TERMINATOR := by decide

theorem dropWhile_replicate_space (k : Nat) (l : List Nat) :
    List.dropWhile (fun c => c == 32) (List.replicate k 32 ++ l)
      = List.dropWhile (fun c => c == 32) l := by
  induction k with
  | zero => rfl
  | succ k ih => simpa [List.replicate_succ, List.dropWhile] using ih

/-- Trailing spaces appended to a string disappear under `cut_tail`. -/
theorem cut_tail_append_replicate (s : List Nat) (k : Nat) :
    cut_tail (s ++ List.replicate k 32) = cut_tail s := by
  unfold cut_tail
  rw [List.reverse_append, List.reverse_replicate, dropWhile_replicate_space]

theorem getD_range_map (n : Nat) (f : Nat → Nat) (j : Nat) (h : j < n) :
    ((List.range n).map f).getD j 0 = f j := by
  simp [List.getD, List.getElem?_map, List.getElem?_range h]

theorem getD_eq_getElem_of_lt (l : List Nat) (j : Nat) (h : j < l.length) :
    l.getD j 0 = l[j] := by
  simp [List.getD, List.getElem?_eq_getElem h]

theorem getD_mem_of_lt (l : List Nat) (j : Nat) (h : j < l.length) : l.getD j 0 ∈ l := by
  rw [getD_eq_getElem_of_lt l j h]
  exact List.getElem_mem h

theorem getD_eq_zero_of_le (l : List Nat) (j : Nat) (h : l.length ≤ j) : l.getD j 0 = 0 := by
  simp [List.getD, List.getElem?_eq_none h]

theorem bcd_pair_hi : ∀ x, x < 16 → ∀ y, y < 16 →
    ((((x <<< 4) ||| y) % 256) >>> 4) &&& 15 = x := by decide

theorem bcd_pair_lo : ∀ x, x < 16 → ∀ y, y < 16 →
    ((((x <<< 4) ||| y) % 256) >>> 0) &&& 15 = y := by decide

theorem bcdnib_lt16 : ∀ a, a < 64 → isBCDchar a → bcdnib a < 16 := by decide

theorem bcdnib_zero_lt16 : bcdnib 0 < 16 := by decide

theorem bcdplus_char_bcdnib : ∀ a, a < 64 → isBCDchar a → bcdplus_char (bcdnib a) = a := by
  decide

theorem bcdplus_char_bcdnib_zero : bcdplus_char (bcdnib 0) = 32 := by decide

theorem isBCDchar_lt64 (a : Nat) (h : isBCDchar a) : a < 64 := by
  unfold isBCDchar at h; omega

/-- Decoding the BCD-plus packing of a digits/space/dash/dot string yields
the string followed by a padding space when the length was odd. -/
theorem bcd_decode_chars (s : List Nat) (hc : ∀ c ∈ s, isBCDchar c) :
    (List.range (2 * ((s.length + 1) / 2))).map (fun i =>
      bcdplus_char (((fru_encode_bcdplus_data ((s.length + 1) / 2) s).getD (i / 2) 0 >>>
        (if i % 2 = 1 then 0 else 4)) &&& 15))
    = s ++ List.replicate (2 * ((s.length + 1) / 2) - s.length) 32 := by
  apply List.ext_getElem
  · simp only [List.length_map, List.length_range, List.length_append, List.length_replicate]
    omega
  · intro i h1 h2
    simp only [List.length_map, List.length_range] at h1
    simp only [List.getElem_map, List.getElem_range]
    have hidiv : i / 2 < (s.length + 1) / 2 := by omega
    simp only [fru_encode_bcdplus_data]
    rw [getD_range_map _ _ _ hidiv]
    have hble : ∀ j, bcdnib (s.getD j 0) < 16 := by
      intro j
      by_cases hj : j < s.length
      · exact bcdnib_lt16 _ (isBCDchar_lt64 _ (hc _ (getD_mem_of_lt s j hj)))
          (hc _ (getD_mem_of_lt s j hj))
      · rw [getD_eq_zero_of_le s j (by omega)]; exact bcdnib_zero_lt16
    by_cases hodd : i % 2 = 1
    · rw [if_pos hodd]
      have h2i : 2 * (i / 2) + 1 = i := by omega
      rw [h2i]
      rw [bcd_pair_lo _ (hble _) _ (hble _)]
      by_cases hin : i < s.length
      · rw [getD_eq_getElem_of_lt s i hin,
          bcdplus_char_bcdnib _ (isBCDchar_lt64 _ (hc _ (List.getElem_mem hin)))
            (hc _ (List.getElem_mem hin))]
        rw [List.getElem_append_left hin]
      · have hieq : i = s.length := by omega
        rw [getD_eq_zero_of_le s i (by omega), bcdplus_char_bcdnib_zero]
        rw [List.getElem_append_right (by omega)]
        simp [List.getElem_replicate]
    · rw [if_neg hodd]
      have h2i : 2 * (i / 2) = i := by omega
      rw [h2i]
      rw [bcd_pair_hi _ (hble _) _ (hble _)]
      have hin : i < s.length := by omega
      rw [getD_eq_getElem_of_lt s i hin,
        bcdplus_char_bcdnib _ (isBCDchar_lt64 _ (hc _ (List.getElem_mem hin)))
          (hc _ (List.getElem_mem hin))]
      rw [List.getElem_append_left hin]

/-- C2 (amended).  For a non-empty digits/space/dash/dot string of at most
63 bytes, with autodetection enabled, inference selects BCD-plus with
payload length `(n + 1) / 2`, encoding packs the string, and decoding the
encoded field into a large enough buffer yields the original string up to
trailing-space stripping. -/
theorem fru_bcdplus_roundtrip (s : List Nat) (h1 : 1 ≤ s.length) (h63 : s.length ≤ 63)
    (hc : ∀ c ∈ s, isBCDchar c) (out_len : Nat)
    (hout : 2 * ((s.length + 1) / 2) + 1 ≤ out_len) :
    fru_get_typelen 0 (some s) true = 64 + (s.length + 1) / 2
    ∧ fru_encode_data 0 (some s) true
        = some ⟨64 + (s.length + 1) / 2, fru_encode_bcdplus_data ((s.length + 1) / 2) s⟩
    ∧ fru_decode_bcdplus
        ⟨64 + (s.length + 1) / 2, fru_encode_bcdplus_data ((s.length + 1) / 2) s⟩ out_len
        = some (cut_tail s) := by
  have hdl : (s.length + 1) / 2 < 64 := by omega
  have htl : fru_get_typelen 0 (some s) true = 64 + (s.length + 1) / 2 := by
    rw [fru_get_typelen_auto_eq s true (by omega) h63, if_pos rfl]
    exact typelen_scan_bcd_all s.length _ hdl s hc
  refine ⟨htl, ?_, ?_⟩
  · simp only [fru_encode_data, htl]
    rw [if_neg (by rw [FRU_FIELD_TERMINATOR_eq]; omega)]
    rw [if_neg (by rw [FRU_TYPE_64 _ hdl]; omega)]
    rw [if_pos (FRU_TYPE_64 _ hdl)]
    simp only [Option.getD_some]
    rw [FRU_FIELDDATALEN_64 _ hdl]
  · simp only [fru_decode_bcdplus]
    rw [FRU_FIELDDATALEN_64 _ hdl]
    rw [if_neg (by omega)]
    rw [bcd_decode_chars s hc, cut_tail_append_replicate]

/-- C2 witness: round trip of the string "12-3". -/
theorem fru_bcdplus_roundtrip_witness :
    (1 ≤ ([49, 50, 45, 51] : List Nat).length ∧ ([49, 50, 45, 51] : List Nat).length ≤ 63
      ∧ (∀ c ∈ ([49, 50, 45, 51] : List Nat), isBCDchar c)
      ∧ 2 * ((([49, 50, 45, 51] : List Nat).length + 1) / 2) + 1 ≤ 64)
    ∧ (fru_get_typelen 0 (some [49, 50, 45, 51]) true
        = 64 + (([49, 50, 45, 51] : List Nat).length + 1) / 2
      ∧ fru_encode_data 0 (some [49, 50, 45, 51]) true
          = some ⟨64 + (([49, 50, 45, 51] : List Nat).length + 1) / 2,
              fru_encode_bcdplus_data ((([49, 50, 45, 51] : List Nat).length + 1) / 2)
                [49, 50, 45, 51]⟩
      ∧ fru_decode_bcdplus
          ⟨64 + (([49, 50, 45, 51] : List Nat).length + 1) / 2,
            fru_encode_bcdplus_data ((([49, 50, 45, 51] : List Nat).length + 1) / 2)
              [49, 50, 45, 51]⟩ 64
          = some (cut_tail [49, 50, 45, 51])) :=
  ⟨⟨by decide, by decide, by decide, by decide⟩,
    fru_bcdplus_roundtrip [49, 50, 45, 51] (by decide) (by decide) (by decide) 64 (by decide)⟩

/-- C2 counterexample: a 64-digit string is within the claimed 126-byte
bound yet inference does not select BCD-plus: it fails with the terminator
sentinel, and encoding fails; the empty string is likewise mapped to the
empty text tag, not BCD-plus. -/
theorem fru_bcdplus_cex :
    (∀ c ∈ List.replicate 64 48, isBCDchar c)
    ∧ (List.replicate 64 48 : List Nat).length = 64
    ∧ fru_get_typelen 0 (some (List.replicate 64 48)) true = FRU_FIELD_TERMINATOR
    ∧ FRU_TYPE (fru_get_typelen 0 (some (List.replicate 64 48)) true) ≠ 1
    ∧ fru_encode_data 0 (some (List.replicate 64 48)) true = none
    ∧ fru_get_typelen 0 (some []) true = FRU_FIELD_EMPTY
    ∧ FRU_TYPE (fru_get_typelen 0 (some []) true) ≠ 1 := by decide

theorem enc6char_lt64 (b : Nat) : enc6char b < 64 :=
  lt_of_le_of_lt Nat.and_le_right (by norm_num)

theorem enc6char_eq : ∀ b, b < 96 → 32 ≤ b → enc6char b = b - 32 := by decide

theorem dec6go_zero (phase : Nat) (bs : List Nat) : dec6go phase 0 bs = [] := rfl

theorem dec6go_step0 (n b0 : Nat) (rest : List Nat) (h : b0 ≠ 0) :
    dec6go 0 (n + 1) (b0 :: rest)
      = (((b0 &&& 63) % 256 &&& 63) + 32) :: dec6go 1 n (b0 :: rest) := by
  simp [dec6go, h]

theorem dec6go_step1 (n b0 : Nat) (rest : List Nat) (h : b0 ≠ 0) :
    dec6go 1 (n + 1) (b0 :: rest)
      = ((((b0 >>> 6) ||| (rest.headD 0 <<< 2)) % 256 &&& 63) + 32) :: dec6go 2 n rest := by
  simp [dec6go, h]

theorem dec6go_step2 (n b1 : Nat) (rest : List Nat) (h : b1 ≠ 0) :
    dec6go 2 (n + 1) (b1 :: rest)
      = ((((b1 >>> 4) ||| (rest.headD 0 <<< 4)) % 256 &&& 63) + 32) :: dec6go 3 n rest := by
  simp [dec6go, h]

theorem dec6go_step3 (n b2 : Nat) (rest : List Nat) (h : b2 ≠ 0) :
    dec6go 3 (n + 1) (b2 :: rest)
      = (((b2 >>> 2) % 256 &&& 63) + 32) :: dec6go 0 n rest := by
  simp [dec6go, h]

theorem dec6_c0 : ∀ c0, c0 < 64 → ∀ c1, c1 < 64 →
    ((enc6b0 c0 c1 &&& 63) % 256 &&& 63) = c0 := by decide

theorem dec6_b0s : ∀ c0, c0 < 64 → ∀ c1, c1 < 64 →
    enc6b0 c0 c1 >>> 6 = c1 &&& 3 := by decide

theorem dec6_c1 : ∀ c1, c1 < 64 → ∀ c2, c2 < 64 →
    (((c1 &&& 3) ||| (enc6b1 c1 c2 <<< 2)) % 256 &&& 63) = c1 := by decide

theorem dec6_c1t : ∀ c1, c1 < 64 →
    (((c1 &&& 3) ||| ((c1 >>> 2) <<< 2)) % 256 &&& 63) = c1 := by decide

theorem dec6_b1s : ∀ c1, c1 < 64 → ∀ c2, c2 < 64 →
    enc6b1 c1 c2 >>> 4 = c2 &&& 15 := by decide

theorem dec6_c2 : ∀ c2, c2 < 64 → ∀ c3, c3 < 64 →
    (((c2 &&& 15) ||| (enc6b2 c2 c3 <<< 4)) % 256 &&& 63) = c2 := by decide

theorem dec6_c2t : ∀ c2, c2 < 64 →
    (((c2 &&& 15) ||| ((c2 >>> 4) <<< 4)) % 256 &&& 63) = c2 := by decide

theorem dec6_c3 : ∀ c2, c2 < 64 → ∀ c3, c3 < 64 →
    ((enc6b2 c2 c3 >>> 2) % 256 &&& 63) = c3 := by decide

theorem dec6_c3t : ∀ c2, c2 < 64 →
    (((c2 >>> 4) >>> 2) % 256 &&& 63) = 0 := by decide

theorem enc6_length : ∀ s : List Nat,
    (fru_encode_6bit_data s).length = FRU_6BIT_LENGTH s.length
  | [] => rfl
  | [_] => by simp [fru_encode_6bit_data, FRU_6BIT_LENGTH]
  | [_, _] => by simp [fru_encode_6bit_data, FRU_6BIT_LENGTH]
  | [_, _, _] => by simp [fru_encode_6bit_data, FRU_6BIT_LENGTH]
  | _ :: _ :: _ :: _ :: rest => by
    simp only [fru_encode_6bit_data, List.length_cons, enc6_length rest]
    unfold FRU_6BIT_LENGTH
    omega

/-- Running the full 6-bit unpacking loop over a freshly packed in-range
string none of whose packed bytes is zero reproduces the string, plus one
trailing space when the length is 3 mod 4. -/
theorem dec6go_enc : ∀ s : List Nat, (∀ c ∈ s, 32 ≤ c ∧ c ≤ 95) →
    (∀ b ∈ fru_encode_6bit_data s, b ≠ 0) →
    dec6go 0 (FRU_6BIT_FULLLENGTH (FRU_6BIT_LENGTH s.length)) (fru_encode_6bit_data s)
      = s ++ (if s.length % 4 = 3 then [32] else [])
  | [], _, _ => by decide
  | [s0], hs, hz => by
    obtain ⟨h0l, h0u⟩ := hs s0 (by simp)
    have e0 : enc6char s0 = s0 - 32 := enc6char_eq s0 (by omega) h0l
    have hz0 : enc6char s0 ≠ 0 := hz _ (by simp [fru_encode_6bit_data])
    show dec6go 0 (FRU_6BIT_FULLLENGTH (FRU_6BIT_LENGTH 1)) [enc6char s0] = _
    have hb : FRU_6BIT_FULLLENGTH (FRU_6BIT_LENGTH 1) = 1 := by decide
    rw [hb, dec6go_step0 0 _ _ hz0, dec6go_zero,
      and63_small _ (enc6char_lt64 s0), e0]
    simp
    omega
  | [s0, s1], hs, hz => by
    obtain ⟨h0l, h0u⟩ := hs s0 (by simp)
    obtain ⟨h1l, h1u⟩ := hs s1 (by simp)
    have e0 : enc6char s0 = s0 - 32 := enc6char_eq s0 (by omega) h0l
    have e1 : enc6char s1 = s1 - 32 := enc6char_eq s1 (by omega) h1l
    have hz0 : enc6b0 (enc6char s0) (enc6char s1) ≠ 0 := hz _ (by simp [fru_encode_6bit_data])
    show dec6go 0 (FRU_6BIT_FULLLENGTH (FRU_6BIT_LENGTH 2))
        [enc6b0 (enc6char s0) (enc6char s1), enc6char s1 >>> 2] = _
    have hb : FRU_6BIT_FULLLENGTH (FRU_6BIT_LENGTH 2) = 2 := by decide
    rw [hb, dec6go_step0 1 _ _ hz0, dec6go_step1 0 _ _ hz0, dec6go_zero]
    simp only [List.headD_cons,
      dec6_c0 _ (enc6char_lt64 s0) _ (enc6char_lt64 s1),
      dec6_b0s _ (enc6char_lt64 s0) _ (enc6char_lt64 s1),
      dec6_c1t _ (enc6char_lt64 s1)]
    rw [e0, e1]
    simp
    omega
  | [s0, s1, s2], hs, hz => by
    obtain ⟨h0l, h0u⟩ := hs s0 (by simp)
    obtain ⟨h1l, h1u⟩ := hs s1 (by simp)
    obtain ⟨h2l, h2u⟩ := hs s2 (by simp)
    have e0 : enc6char s0 = s0 - 32 := enc6char_eq s0 (by omega) h0l
    have e1 : enc6char s1 = s1 - 32 := enc6char_eq s1 (by omega) h1l
    have e2 : enc6char s2 = s2 - 32 := enc6char_eq s2 (by omega) h2l
    have hz0 : enc6b0 (enc6char s0) (enc6char s1) ≠ 0 := hz _ (by simp [fru_encode_6bit_data])
    have hz1 : enc6b1 (enc6char s1) (enc6char s2) ≠ 0 := hz _ (by simp [fru_encode_6bit_data])
    have hz2 : enc6char s2 >>> 4 ≠ 0 := hz _ (by simp [fru_encode_6bit_data])
    show dec6go 0 (FRU_6BIT_FULLLENGTH (FRU_6BIT_LENGTH 3))
        [enc6b0 (enc6char s0) (enc6char s1), enc6b1 (enc6char s1) (enc6char s2),
         enc6char s2 >>> 4] = _
    have hb : FRU_6BIT_FULLLENGTH (FRU_6BIT_LENGTH 3) = 4 := by decide
    rw [hb, dec6go_step0 3 _ _ hz0, dec6go_step1 2 _ _ hz0, dec6go_step2 1 _ _ hz1,
      dec6go_step3 0 _ _ hz2, dec6go_zero]
    simp only [List.headD_cons,
      dec6_c0 _ (enc6char_lt64 s0) _ (enc6char_lt64 s1),
      dec6_b0s _ (enc6char_lt64 s0) _ (enc6char_lt64 s1),
      dec6_c1 _ (enc6char_lt64 s1) _ (enc6char_lt64 s2),
      dec6_b1s _ (enc6char_lt64 s1) _ (enc6char_lt64 s2),
      dec6_c2t _ (enc6char_lt64 s2),
      dec6_c3t _ (enc6char_lt64 s2)]
    rw [e0, e1, e2]
    simp
    omega
  | s0 :: s1 :: s2 :: s3 :: rest, hs, hz => by
    obtain ⟨h0l, h0u⟩ := hs s0 (by simp)
    obtain ⟨h1l, h1u⟩ := hs s1 (by simp)
    obtain ⟨h2l, h2u⟩ := hs s2 (by simp)
    obtain ⟨h3l, h3u⟩ := hs s3 (by simp)
    have e0 : enc6char s0 = s0 - 32 := enc6char_eq s0 (by omega) h0l
    have e1 : enc6char s1 = s1 - 32 := enc6char_eq s1 (by omega) h1l
    have e2 : enc6char s2 = s2 - 32 := enc6char_eq s2 (by omega) h2l
    have e3 : enc6char s3 = s3 - 32 := enc6char_eq s3 (by omega) h3l
    have hz0 : enc6b0 (enc6char s0) (enc6char s1) ≠ 0 := hz _ (by simp [fru_encode_6bit_data])
    have hz1 : enc6b1 (enc6char s1) (enc6char s2) ≠ 0 := hz _ (by simp [fru_encode_6bit_data])
    have hz2 : enc6b2 (enc6char s2) (enc6char s3) ≠ 0 := hz _ (by simp [fru_encode_6bit_data])
    have ih := dec6go_enc rest (fun c hc => hs c (by simp [hc]))
      (fun b hb => hz b (by simp [fru_encode_6bit_data, hb]))
    have hbud : FRU_6BIT_FULLLENGTH (FRU_6BIT_LENGTH (s0 :: s1 :: s2 :: s3 :: rest).length)
        = FRU_6BIT_FULLLENGTH (FRU_6BIT_LENGTH rest.length) + 4 := by
      simp only [List.length_cons]
      unfold FRU_6BIT_LENGTH FRU_6BIT_FULLLENGTH
      omega
    show dec6go 0 _ (enc6b0 (enc6char s0) (enc6char s1) :: enc6b1 (enc6char s1) (enc6char s2)
      :: enc6b2 (enc6char s2) (enc6char s3) :: fru_encode_6bit_data rest) = _
    rw [hbud, dec6go_step0 _ _ _ hz0, dec6go_step1 _ _ _ hz0, dec6go_step2 _ _ _ hz1,
      dec6go_step3 _ _ _ hz2, ih]
    simp only [List.headD_cons,
      dec6_c0 _ (enc6char_lt64 s0) _ (enc6char_lt64 s1),
      dec6_b0s _ (enc6char_lt64 s0) _ (enc6char_lt64 s1),
      dec6_c1 _ (enc6char_lt64 s1) _ (enc6char_lt64 s2),
      dec6_b1s _ (enc6char_lt64 s1) _ (enc6char_lt64 s2),
      dec6_c2 _ (enc6char_lt64 s2) _ (enc6char_lt64 s3),
      dec6_c3 _ (enc6char_lt64 s2) _ (enc6char_lt64 s3)]
    rw [e0, e1, e2, e3]
    have hm : (s0 :: s1 :: s2 :: s3 :: rest).length % 4 = rest.length % 4 := by
      simp [List.length_cons]
      omega
    rw [hm]
    simp
    omega

/-- C3 (amended).  For a string of 1 to 63 bytes over the printable 6-bit
range `0x20..0x5F` containing at least one character outside
digits/space/dash/dot, with autodetection enabled, inference selects 6-bit
ASCII; when no byte of the packed encoding is zero, decoding the encoded
field recovers the original string up to trailing-space truncation (a zero
packed byte stops the decoder early, see the counterexample). -/
theorem fru_6bit_roundtrip (s : List Nat) (h1 : 1 ≤ s.length) (h63 : s.length ≤ 63)
    (hrange : ∀ c ∈ s, 32 ≤ c ∧ c ≤ 95) (hbad : ∃ c ∈ s, ¬isBCDchar c)
    (hz : ∀ b ∈ fru_encode_6bit_data s, b ≠ 0) (out_len : Nat)
    (hout : FRU_6BIT_FULLLENGTH (FRU_6BIT_LENGTH s.length) + 1 ≤ out_len) :
    fru_get_typelen 0 (some s) true = 128 + FRU_6BIT_LENGTH s.length
    ∧ fru_encode_data 0 (some s) true
        = some ⟨128 + FRU_6BIT_LENGTH s.length, fru_encode_6bit_data s⟩
    ∧ fru_decode_6bit ⟨128 + FRU_6BIT_LENGTH s.length, fru_encode_6bit_data s⟩ out_len
        = some (cut_tail s) := by
  have h6 : FRU_6BIT_LENGTH s.length < 64 := by unfold FRU_6BIT_LENGTH; omega
  have htl : fru_get_typelen 0 (some s) true = 128 + FRU_6BIT_LENGTH s.length := by
    rw [fru_get_typelen_auto_eq s true (by omega) h63, if_pos rfl]
    exact typelen_scan_bcd_to_six s.length _ (by omega) h6 s hrange hbad
  refine ⟨htl, ?_, ?_⟩
  · simp only [fru_encode_data, htl]
    rw [if_neg (by rw [FRU_FIELD_TERMINATOR_eq]; omega)]
    rw [if_pos (FRU_TYPE_128 _ h6)]
    simp only [Option.getD_some]
    unfold fru_encode_6bit
    rw [if_neg (by rw [FRU_FIELDDATALEN_low _ h6]; omega)]
    have e2 : FRU_TYPELEN 2 (FRU_6BIT_LENGTH s.length) % 256
        = 128 + FRU_6BIT_LENGTH s.length := by
      rw [FRU_TYPELEN_eq 2 (by omega) _ (by omega)]; omega
    rw [e2]
  · simp only [fru_decode_6bit]
    rw [FRU_FIELDDATALEN_128 _ h6]
    rw [if_neg (by omega)]
    rw [dec6go_enc s hrange hz]
    by_cases h4 : s.length % 4 = 3
    · rw [if_pos h4, show ([32] : List Nat) = List.replicate 1 32 from rfl,
        cut_tail_append_replicate]
    · rw [if_neg h4]
      simp

/-- C3 witness: round trip of the string "FRU". -/
theorem fru_6bit_roundtrip_witness :
    (1 ≤ ([70, 82, 85] : List Nat).length ∧ ([70, 82, 85] : List Nat).length ≤ 63
      ∧ (∀ c ∈ ([70, 82, 85] : List Nat), 32 ≤ c ∧ c ≤ 95)
      ∧ (∃ c ∈ ([70, 82, 85] : List Nat), ¬isBCDchar c)
      ∧ (∀ b ∈ fru_encode_6bit_data [70, 82, 85], b ≠ 0)
      ∧ FRU_6BIT_FULLLENGTH (FRU_6BIT_LENGTH ([70, 82, 85] : List Nat).length) + 1 ≤ 64)
    ∧ (fru_get_typelen 0 (some [70, 82, 85]) true
        = 128 + FRU_6BIT_LENGTH ([70, 82, 85] : List Nat).length
      ∧ fru_encode_data 0 (some [70, 82, 85]) true
          = some ⟨128 + FRU_6BIT_LENGTH ([70, 82, 85] : List Nat).length,
              fru_encode_6bit_data [70, 82, 85]⟩
      ∧ fru_decode_6bit
          ⟨128 + FRU_6BIT_LENGTH ([70, 82, 85] : List Nat).length,
            fru_encode_6bit_data [70, 82, 85]⟩ 64
          = some (cut_tail [70, 82, 85])) :=
  ⟨⟨by decide, by decide, by decide, by decide, by decide, by decide⟩,
    fru_6bit_roundtrip [70, 82, 85] (by decide) (by decide) (by decide) (by decide)
      (by decide) 64 (by decide)⟩

/-- C3 counterexample.  A 64-character in-range non-BCD string is within
the claimed 84-byte bound but inference yields the terminator sentinel and
encoding fails; and for the 3-character string "A!0" (whose packed middle
byte is zero) the decoder stops early and returns "A!", losing the final
character, so decode does not recover the original up to trailing
spaces. -/
theorem fru_6bit_cex :
    (∀ c ∈ List.replicate 64 65, 32 ≤ c ∧ c ≤ 95)
    ∧ (∃ c ∈ List.replicate 64 65, ¬isBCDchar c)
    ∧ (List.replicate 64 65 : List Nat).length = 64
    ∧ fru_get_typelen 0 (some (List.replicate 64 65)) true = FRU_FIELD_TERMINATOR
    ∧ FRU_TYPE (fru_get_typelen 0 (some (List.replicate 64 65)) true) ≠ 2
    ∧ fru_encode_data 0 (some (List.replicate 64 65)) true = none
    ∧ (∀ c ∈ ([65, 33, 48] : List Nat), 32 ≤ c ∧ c ≤ 95)
    ∧ ¬isBCDchar 33
    ∧ fru_encode_data 0 (some [65, 33, 48]) true = some ⟨131, [97, 0, 1]⟩
    ∧ fru_decode_6bit ⟨131, [97, 0, 1]⟩ 64 = some [65, 33]
    ∧ cut_tail [65, 33, 48] = [65, 33, 48]
    ∧ ([65, 33] : List Nat) ≠ [65, 33, 48] := by decide

/-- C5.  With only the board slot carrying data (a 3-block area), the other
slots typed by their positions and empty, `fru_create` assigns the board
offset right after the one-block header, leaves every other offset 0, and
reports 4 total blocks; the header checksum byte is 254, making the 8
header bytes sum to 0 mod 256. -/
theorem fru_create_board_layout (d : List Nat) (hd : d.getD 1 0 = 3) :
    fru_create [⟨0, 0, none⟩, ⟨1, 0, none⟩, ⟨2, 0, some d⟩, ⟨3, 0, none⟩, ⟨4, 0, none⟩]
      = some (⟨0, 0, 1, 0, 0⟩, 254, 4) := by
  have hd' : d[1]?.getD 0 = 3 := by simpa [List.getD] using hd
  simp [fru_create, fru_create_go, set_area_offset, FRU_AREA_HAS_SIZE, hd', FRU_BLOCKS,
    FRU_BLOCK_SZ, calc_checksum]

/-- C5 witness: the layout theorem instantiated at a concrete board area
whose `blocks` header byte is 3. -/
theorem fru_create_board_layout_witness :
    (([1, 3] : List Nat).getD 1 0 = 3)
    ∧ fru_create [⟨0, 0, none⟩, ⟨1, 0, none⟩, ⟨2, 0, some [1, 3]⟩, ⟨3, 0, none⟩, ⟨4, 0, none⟩]
        = some (⟨0, 0, 1, 0, 0⟩, 254, 4) :=
  ⟨by decide, fru_create_board_layout [1, 3] (by decide)⟩

/-- C8.  `FRU_IS_ATYPE_VALID` as written (at type `int`) accepts
`FRU_AREA_NOT_PRESENT` (-1), but `fru_create` reads the slot type through
`uint8_t`, turning -1 into 255, which fails the promoted `atype < 5`
comparison: any slot declared not-present makes `fru_create` fail with
`EINVAL` instead of being skipped with offset 0. -/
theorem fru_create_not_present_rejected :
    FRU_IS_ATYPE_VALID (-1) = true
    ∧ fru_create [⟨-1, 0, none⟩, ⟨1, 0, none⟩, ⟨2, 0, some [1, 3]⟩, ⟨3, 0, none⟩, ⟨4, 0, none⟩]
        = none := by decide

/-- C7.  The hex-digit loop of `fru_mr_uuid2rec` uses a `static` index that
persists across calls: a first call on the spec's UUID string consumes
indices 0..31 and leaves the static counter at 32; a second, identical call
then starts at 32, so all its writes miss the 16-byte UUID buffer (they land
out of bounds in the C code) and the produced record keeps whatever the
uninitialized stack held (here zeros), differing from the first record.  The
first record's UUID payload also witnesses the little-endian fixup:
time-low `67 45 23 01`. -/
theorem fru_mr_uuid2rec_static_index :
    fru_mr_uuid2rec
        [48, 49, 50, 51, 52, 53, 54, 55, 45, 56, 57, 65, 66, 45, 67, 68, 69, 70,
         45, 48, 49, 50, 51, 45, 52, 53, 54, 55, 56, 57, 65, 66, 67, 68, 69, 70]
        0 (List.replicate 16 0)
      = some ([3, 2, 17, 121, 113, 7,
               103, 69, 35, 1, 171, 137, 239, 205, 1, 35, 69, 103, 137, 171, 205, 239], 32)
    ∧ fru_mr_uuid2rec
        [48, 49, 50, 51, 52, 53, 54, 55, 45, 56, 57, 65, 66, 45, 67, 68, 69, 70,
         45, 48, 49, 50, 51, 45, 52, 53, 54, 55, 56, 57, 65, 66, 67, 68, 69, 70]
        32 (List.replicate 16 0)
      = some ([3, 2, 17, 249, 241, 7,
               0, 0, 0, 0, 0, 0, 0, 0, 0, 0, 0, 0, 0, 0, 0, 0], 64)
    ∧ ([3, 2, 17, 121, 113, 7,
        103, 69, 35, 1, 171, 137, 239, 205, 1, 35, 69, 103, 137, 171, 205, 239] : List Nat)
        ≠ [3, 2, 17, 249, 241, 7, 0, 0, 0, 0, 0, 0, 0, 0, 0, 0, 0, 0, 0, 0, 0, 0]
    ∧ (32 : Nat) ≠ 0 := by decide

/-- C9.  `fru_decode_binary` renders each payload byte as two uppercase hex
characters, but its final write is `out[i * 2 + 1] = '0'` with `i = n`: for
a 1-byte payload and the minimal accepted buffer of 3 bytes it writes the
character `'0'` (0x30) at index 3 — one past the buffer — and never writes
a NUL terminator at index 2. -/
theorem fru_decode_binary_terminator_bug :
    fru_decode_binary_writes ⟨1, [171]⟩ 3 = some [(0, 65), (1, 66), (3, 48)]
    ∧ (∃ w ∈ ([(0, 65), (1, 66), (3, 48)] : List (Nat × Nat)), ¬w.1 < 3)
    ∧ (∀ w ∈ ([(0, 65), (1, 66), (3, 48)] : List (Nat × Nat)), ¬(w.1 = 2 ∧ w.2 = 0)) := by
  decide

/-- C10.  `fru_mr_area` accumulates the record sizes into the caller's
`*total` instead of assigning: the reported size is `total0` plus the true
combined size (5-byte header plus payload length per record), it equals the
true size iff `total0` was zero on entry, and on allocation failure
`*total` is set to 0 alongside the NULL result. -/
theorem fru_mr_area_total_accumulates (reclist : List (Option fru_mr_rec_t)) (total0 : Nat)
    (hne : ∀ o ∈ reclist, ∃ r, o = some r ∧ r.len ≠ 0) :
    (fru_mr_area reclist total0 true).2
        = total0 + (reclist.map (fun o => 5 + (o.elim 0 fru_mr_rec_t.len))).sum
    ∧ ((fru_mr_area reclist total0 true).2 = (fru_mr_area reclist 0 true).2 ↔ total0 = 0)
    ∧ fru_mr_area reclist total0 false = (none, 0) := by
  have hsize : fru_mr_area_size reclist
      = (reclist.map (fun o => 5 + (o.elim 0 fru_mr_rec_t.len))).sum := by
    induction reclist with
    | nil => rfl
    | cons o rest ih =>
      obtain ⟨r, rfl, hr⟩ := hne o (by simp)
      simp only [fru_mr_area_size, if_neg hr, List.map_cons, List.sum_cons,
        ih (fun o ho => hne o (by simp [ho])), Option.elim]
  refine ⟨by simp [fru_mr_area, hsize], ?_, by simp [fru_mr_area]⟩
  simp [fru_mr_area]

/-- C10 witness: one record of payload length 17 with `*total` starting at
7 reports 29, not the true size 22. -/
theorem fru_mr_area_total_accumulates_witness :
    (∀ o ∈ ([some ⟨3, 2, 17, 0, 0, []⟩] : List (Option fru_mr_rec_t)),
      ∃ r, o = some r ∧ r.len ≠ 0)
    ∧ ((fru_mr_area [some ⟨3, 2, 17, 0, 0, []⟩] 7 true).2
        = 7 + (([some ⟨3, 2, 17, 0, 0, []⟩] : List (Option fru_mr_rec_t)).map
            (fun o => 5 + (o.elim 0 fru_mr_rec_t.len))).sum
      ∧ ((fru_mr_area [some ⟨3, 2, 17, 0, 0, []⟩] 7 true).2
          = (fru_mr_area [some ⟨3, 2, 17, 0, 0, []⟩] 0 true).2 ↔ (7 : Nat) = 0)
      ∧ fru_mr_area [some ⟨3, 2, 17, 0, 0, []⟩] 7 false = (none, 0)) :=
  ⟨by intro o ho; simp at ho; exact ⟨_, ho, by decide⟩,
    fru_mr_area_total_accumulates [some ⟨3, 2, 17, 0, 0, []⟩] 7
      (by intro o ho; simp at ho; exact ⟨_, ho, by decide⟩)⟩

theorem set_take_of_le : ∀ (l : List Nat) (p v n : Nat), n ≤ p →
    (l.set p v).take n = l.take n
  | [], _, _, _, _ => by simp
  | a :: t, p, v, 0, _ => by simp
  | a :: t, 0, v, n + 1, h => by omega
  | a :: t, p + 1, v, n + 1, h => by
    simp only [List.set_cons_succ, List.take_succ_cons]
    rw [set_take_of_le t p v n (by omega)]

theorem set_take_of_lt : ∀ (l : List Nat) (q v n : Nat), q < n →
    (l.set q v).take n = (l.take n).set q v
  | [], _, _, _, _ => by simp
  | a :: t, 0, v, n + 1, _ => by simp
  | a :: t, q + 1, v, n + 1, h => by
    simp only [List.set_cons_succ, List.take_succ_cons]
    rw [set_take_of_lt t q v n (by omega)]
  | a :: t, q, v, 0, h => by omega

theorem sum_set_add : ∀ (l : List Nat) (i v : Nat), i < l.length →
    (l.set i v).sum + l.getD i 0 = l.sum + v
  | [], i, v, h => by simp at h
  | a :: t, 0, v, _ => by simp [List.getD_cons_zero]; omega
  | a :: t, i + 1, v, h => by
    simp only [List.set_cons_succ, List.sum_cons, List.getD_cons_succ]
    have := sum_set_add t i v (by simpa using h)
    omega

theorem getD_set_ne (l : List Nat) (i j v : Nat) (h : i ≠ j) :
    (l.set i v).getD j 0 = l.getD j 0 := by
  simp [List.getD, List.getElem?_set_ne h]

theorem getD_set_self (l : List Nat) (i v : Nat) (h : i < l.length) :
    (l.set i v).getD i 0 = v := by
  simp [List.getD, List.getElem?_set_self, h]

theorem getD_drop_take (l : List Nat) (m n i : Nat) (h : i < n) (h2 : m + i < l.length) :
    ((l.drop m).take n).getD i 0 = l.getD (m + i) 0 := by
  simp [List.getD, List.getElem?_take, h, List.getElem?_drop]

/-- The area checksum test of the `AREA` parsers passes exactly when the
whole area sums to 0 mod 256 (for byte-valued contents). -/
theorem checksum_last_iff (as : List Nat) (hne : as ≠ []) (hb : ∀ b ∈ as, b < 256) :
    as.getLast? = some (calc_checksum (as.take (as.length - 1))) ↔ as.sum % 256 = 0 := by
  have hlast : as.getLast? = some (as.getLast hne) := List.getLast?_eq_getLast as hne
  have hsplit : as.dropLast ++ [as.getLast hne] = as := List.dropLast_append_getLast hne
  have hsum : as.sum = as.dropLast.sum + as.getLast hne := by
    conv_lhs => rw [← hsplit]
    simp
  have htake : as.take (as.length - 1) = as.dropLast := (List.dropLast_eq_take as).symm
  have hlt : as.getLast hne < 256 := hb _ (List.getLast_mem hne)
  rw [hlast, htake, hsum]
  unfold calc_checksum
  constructor
  · intro h
    have := Option.some.inj h
    omega
  · intro h
    congr 1
    omega

theorem find_fru_header_set (buffer : List Nat) (size p v : Nat) (hp : 8 ≤ p) :
    find_fru_header (buffer.set p v) size = find_fru_header buffer size := by
  unfold find_fru_header
  rw [getD_set_ne _ _ _ _ (by omega : p ≠ 0), getD_set_ne _ _ _ _ (by omega : p ≠ 6),
    getD_set_ne _ _ _ _ (by omega : p ≠ 7), set_take_of_le _ _ _ _ (by omega)]

/-- C6 (amended).  For a buffer accepted by one of the three named area
finders, changing any single byte of the accepted area slice other than the
area's block-count byte (area byte 1) to a different byte value makes the
finder reject the buffer: the version byte is checked directly and every
other byte is covered by the checksum over the declared span.  (Changing
the block-count byte itself alters the checksummed span and can evade
detection, see the counterexample.) -/
theorem find_fru_area_tamper (buffer : List Nat) (idx : Nat) (area : List Nat)
    (hbytes : ∀ b ∈ buffer, b < 256)
    (hidx : idx = 2 ∨ idx = 3 ∨ idx = 4)
    (hacc : find_fru_area buffer buffer.length idx = some area)
    (p v : Nat) (hv : v < 256)
    (hlo : FRU_BYTES (buffer.getD idx 0) ≤ p)
    (hhi : p < FRU_BYTES (buffer.getD idx 0) + area.length)
    (hnb : p ≠ FRU_BYTES (buffer.getD idx 0) + 1)
    (hdiff : v ≠ buffer.getD p 0) :
    find_fru_area (buffer.set p v) buffer.length idx = none := by
  simp only [find_fru_area] at hacc
  split_ifs at hacc with h1 h2 h3 h4 h5 h6
  push_neg at h6
  have hA : (buffer.drop (FRU_BYTES (buffer.getD idx 0))).take
      (FRU_BYTES (buffer.getD (FRU_BYTES (buffer.getD idx 0) + 1) 0)) = area :=
    Option.some.inj hacc
  have ho1 : 1 ≤ buffer.getD idx 0 := by omega
  have hp8 : 8 ≤ p := by
    have : 8 ≤ FRU_BYTES (buffer.getD idx 0) := by unfold FRU_BYTES FRU_BLOCK_SZ; omega
    omega
  have hKlen : area.length
      = FRU_BYTES (buffer.getD (FRU_BYTES (buffer.getD idx 0) + 1) 0) := by
    rw [← hA, List.length_take, List.length_drop]
    omega
  have hK1 : 1 ≤ area.length := by omega
  have hpL : p < buffer.length := by omega
  simp only [find_fru_area]
  rw [find_fru_header_set buffer buffer.length p v hp8]
  rw [if_neg (by simp [h1])]
  rw [getD_set_ne _ _ _ _ (show p ≠ idx by omega)]
  rw [if_neg h2, if_neg h3]
  by_cases hp0 : p = FRU_BYTES (buffer.getD idx 0)
  · rw [← hp0, getD_set_self _ _ _ hpL]
    rw [if_pos (show v ≠ 1 by rw [hp0] at hdiff; omega)]
  · have hp2 : FRU_BYTES (buffer.getD idx 0) + 2 ≤ p := by omega
    rw [getD_set_ne _ _ _ _ (show p ≠ FRU_BYTES (buffer.getD idx 0) by omega)]
    rw [if_neg h4]
    rw [getD_set_ne _ _ _ _ hnb]
    rw [if_neg h5]
    have hdrop : (buffer.set p v).drop (FRU_BYTES (buffer.getD idx 0))
        = (buffer.drop (FRU_BYTES (buffer.getD idx 0))).set
            (p - FRU_BYTES (buffer.getD idx 0)) v := by
      rw [List.drop_set]
      rw [if_neg (by omega)]
    have harea' : ((buffer.set p v).drop (FRU_BYTES (buffer.getD idx 0))).take
        (FRU_BYTES (buffer.getD (FRU_BYTES (buffer.getD idx 0) + 1) 0))
        = area.set (p - FRU_BYTES (buffer.getD idx 0)) v := by
      rw [hdrop, set_take_of_lt _ _ _ _ (by omega), hA]
    rw [harea']
    have hne : area ≠ [] := by
      intro h0
      rw [h0] at hK1
      simp at hK1
    have hbarea : ∀ b ∈ area, b < 256 := by
      intro b hb
      rw [← hA] at hb
      exact hbytes b (List.mem_of_mem_drop (List.mem_of_mem_take hb))
    have hsum0 : area.sum % 256 = 0 := by
      rw [← checksum_last_iff area hne hbarea]
      rw [hA] at h6
      rw [show area.length - 1
          = FRU_BYTES (buffer.getD (FRU_BYTES (buffer.getD idx 0) + 1) 0) - 1 by omega]
      exact h6
    have hqlt : p - FRU_BYTES (buffer.getD idx 0) < area.length := by omega
    have hne' : area.set (p - FRU_BYTES (buffer.getD idx 0)) v ≠ [] := by
      intro h0
      have h00 := congrArg List.length h0
      rw [List.length_set] at h00
      simp only [List.length_nil] at h00
      omega
    have hbarea' : ∀ b ∈ area.set (p - FRU_BYTES (buffer.getD idx 0)) v, b < 256 := by
      intro b hb
      rcases List.mem_or_eq_of_mem_set hb with hm | he
      · exact hbarea b hm
      · omega
    have hold : area.getD (p - FRU_BYTES (buffer.getD idx 0)) 0 = buffer.getD p 0 := by
      rw [← hA]
      rw [getD_drop_take buffer _ _ _ (by omega) (by omega)]
      congr 1
      omega
    have holdlt : buffer.getD p 0 < 256 :=
      hbytes _ (getD_mem_of_lt buffer p hpL)
    have hsumset := sum_set_add area (p - FRU_BYTES (buffer.getD idx 0)) v hqlt
    rw [if_pos ?cond]
    case cond =>
      have hlen' : (area.set (p - FRU_BYTES (buffer.getD idx 0)) v).length = area.length :=
        List.length_set area _ v
      rw [show FRU_BYTES (buffer.getD (FRU_BYTES (buffer.getD idx 0) + 1) 0) - 1
          = (area.set (p - FRU_BYTES (buffer.getD idx 0)) v).length - 1 by rw [hlen']; omega]
      rw [Ne, checksum_last_iff _ hne' hbarea']
      omega

/-- C6 counterexample: a 24-byte FRU image whose chassis area (bytes 8..23)
is accepted; changing the single area byte at index 9 — the area's
block-count byte — from 2 to 1 still yields an accepted area, because the
change also shrinks the span the checksum is computed over. -/
theorem find_fru_area_tamper_cex :
    find_fru_chassis_area
        [1, 0, 1, 0, 0, 0, 0, 254, 1, 2, 254, 0, 0, 0, 0, 0, 255, 0, 0, 0, 0, 0, 0, 0] 24
      = some [1, 2, 254, 0, 0, 0, 0, 0, 255, 0, 0, 0, 0, 0, 0, 0]
    ∧ (([1, 0, 1, 0, 0, 0, 0, 254, 1, 2, 254, 0, 0, 0, 0, 0, 255, 0, 0, 0, 0, 0, 0, 0] :
        List Nat).set 9 1).getD 9 0
        ≠ ([1, 0, 1, 0, 0, 0, 0, 254, 1, 2, 254, 0, 0, 0, 0, 0, 255, 0, 0, 0, 0, 0, 0, 0] :
            List Nat).getD 9 0
    ∧ find_fru_chassis_area
        (([1, 0, 1, 0, 0, 0, 0, 254, 1, 2, 254, 0, 0, 0, 0, 0, 255, 0, 0, 0, 0, 0, 0, 0] :
          List Nat).set 9 1) 24
      = some [1, 1, 254, 0, 0, 0, 0, 0] := by decide

/-- C6 witness: tampering a covered data byte (index 10, value 254 changed
to 7) of the same accepted chassis area is rejected. -/
theorem find_fru_area_tamper_witness :
    ((∀ b ∈ ([1, 0, 1, 0, 0, 0, 0, 254, 1, 2, 254, 0, 0, 0, 0, 0, 255, 0, 0, 0, 0, 0, 0, 0] :
        List Nat), b < 256)
      ∧ ((2 : Nat) = 2 ∨ (2 : Nat) = 3 ∨ (2 : Nat) = 4)
      ∧ find_fru_area
          [1, 0, 1, 0, 0, 0, 0, 254, 1, 2, 254, 0, 0, 0, 0, 0, 255, 0, 0, 0, 0, 0, 0, 0]
          ([1, 0, 1, 0, 0, 0, 0, 254, 1, 2, 254, 0, 0, 0, 0, 0, 255, 0, 0, 0, 0, 0, 0, 0] :
            List Nat).length 2
        = some [1, 2, 254, 0, 0, 0, 0, 0, 255, 0, 0, 0, 0, 0, 0, 0]
      ∧ (7 : Nat) < 256
      ∧ FRU_BYTES (([1, 0, 1, 0, 0, 0, 0, 254, 1, 2, 254, 0, 0, 0, 0, 0, 255, 0, 0, 0, 0, 0,
          0, 0] : List Nat).getD 2 0) ≤ 10)
    ∧ find_fru_area
        (([1, 0, 1, 0, 0, 0, 0, 254, 1, 2, 254, 0, 0, 0, 0, 0, 255, 0, 0, 0, 0, 0, 0, 0] :
          List Nat).set 10 7)
        ([1, 0, 1, 0, 0, 0, 0, 254, 1, 2, 254, 0, 0, 0, 0, 0, 255, 0, 0, 0, 0, 0, 0, 0] :
          List Nat).length 2
      = none :=
  ⟨⟨by decide, by decide, by decide, by decide, by decide⟩,
    find_fru_area_tamper
      [1, 0, 1, 0, 0, 0, 0, 254, 1, 2, 254, 0, 0, 0, 0, 0, 255, 0, 0, 0, 0, 0, 0, 0] 2
      [1, 2, 254, 0, 0, 0, 0, 0, 255, 0, 0, 0, 0, 0, 0, 0]
      (by decide) (by decide) (by decide) 10 7 (by decide) (by decide) (by decide)
      (by decide) (by decide)⟩

theorem getD_lt256 (l : List Nat) (j : Nat) (h : ∀ b ∈ l, b < 256) : l.getD j 0 < 256 := by
  by_cases hj : j < l.length
  · exact h _ (getD_mem_of_lt l j hj)
  · rw [getD_eq_zero_of_le l j (by omega)]; omega

theorem typelen_scan_lt256 (ad : Bool) (len : Nat) :
    ∀ (d : List Nat) (tl : Nat), tl < 256 → typelen_scan ad len tl d < 256 := by
  intro d
  induction d with
  | nil => intro tl h; exact h
  | cons c rest ih =>
    intro tl h
    rw [typelen_scan]
    split_ifs with h1 h2 h3 h4
    · exact Nat.mod_lt _ (by norm_num)
    · exact ih _ (Nat.mod_lt _ (by norm_num))
    · exact ih _ (Nat.mod_lt _ (by norm_num))
    · exact ih _ h
    · exact ih _ h

theorem shiftRight_le_self (x k : Nat) : x >>> k ≤ x := by
  rw [Nat.shiftRight_eq_div_pow]
  exact Nat.div_le_self _ _

theorem fru_get_typelen_lt256 (len : Int) (data : Option (List Nat)) (ad : Bool) :
    fru_get_typelen len data ad < 256 := by
  cases data with
  | none =>
    show FRU_FIELD_EMPTY < 256
    decide
  | some d =>
    simp only [fru_get_typelen]
    split_ifs <;>
      first
        | decide
        | exact Nat.mod_lt _ (by norm_num)
        | (apply typelen_scan_lt256; exact Nat.mod_lt _ (by norm_num))

theorem enc6_bytes_lt : ∀ (s : List Nat), ∀ b ∈ fru_encode_6bit_data s, b < 256
  | [] => by simp [fru_encode_6bit_data]
  | [s0] => by
    simp only [fru_encode_6bit_data, List.mem_singleton]
    intro b hb
    subst hb
    exact lt_trans (enc6char_lt64 s0) (by norm_num)
  | [s0, s1] => by
    intro b hb
    simp only [fru_encode_6bit_data, List.mem_cons, List.not_mem_nil, or_false] at hb
    rcases hb with rfl | rfl
    · exact Nat.mod_lt _ (by norm_num)
    · have h1 := enc6char_lt64 s1
      have h2 : enc6char s1 >>> 2 ≤ enc6char s1 := shiftRight_le_self _ _
      omega
  | [s0, s1, s2] => by
    intro b hb
    simp only [fru_encode_6bit_data, List.mem_cons, List.not_mem_nil, or_false] at hb
    have h1 := enc6char_lt64 s2
    have h2 : enc6char s2 >>> 4 ≤ enc6char s2 := shiftRight_le_self _ _
    rcases hb with rfl | rfl | rfl
    · exact Nat.mod_lt _ (by norm_num)
    · exact Nat.mod_lt _ (by norm_num)
    · omega
  | s0 :: s1 :: s2 :: s3 :: rest => by
    intro b hb
    simp only [fru_encode_6bit_data, List.mem_cons] at hb
    rcases hb with rfl | rfl | rfl | hb
    · exact Nat.mod_lt _ (by norm_num)
    · exact Nat.mod_lt _ (by norm_num)
    · exact Nat.mod_lt _ (by norm_num)
    · exact enc6_bytes_lt rest b hb

/-- Every field produced by `fru_encode_data` from a byte string of at most
255 bytes is well-formed. -/
theorem fru_encode_data_wf (len : Int) (d : List Nat)
    (hd : ∀ b ∈ d, b < 256) (hn : d.length ≤ 255) (ad : Bool)
    (f : FruField) (h : fru_encode_data len (some d) ad = some f) : FruFieldWF f := by
  have htl := fru_get_typelen_lt256 len (some d) ad
  simp only [fru_encode_data, Option.getD_some] at h
  by_cases h1 : fru_get_typelen len (some d) ad = FRU_FIELD_TERMINATOR
  · rw [if_pos h1] at h
    exact Option.noConfusion h
  rw [if_neg h1] at h
  by_cases h2 : FRU_TYPE (fru_get_typelen len (some d) ad) = 2
  · rw [if_pos h2] at h
    simp only [fru_encode_6bit] at h
    by_cases h4 : FRU_FIELDDATALEN (FRU_6BIT_LENGTH d.length) < FRU_6BIT_LENGTH d.length
    · rw [if_pos h4] at h
      exact Option.noConfusion h
    · rw [if_neg h4] at h
      have hf := Option.some.inj h
      subst hf
      have h6b : FRU_6BIT_LENGTH d.length < 256 := by unfold FRU_6BIT_LENGTH; omega
      have h6 : FRU_6BIT_LENGTH d.length < 64 := by
        rw [FRU_FIELDDATALEN_lt_256 _ h6b] at h4
        omega
      have he : FRU_TYPELEN 2 (FRU_6BIT_LENGTH d.length) % 256
          = 128 + FRU_6BIT_LENGTH d.length := by
        rw [FRU_TYPELEN_eq 2 (by omega) _ h6b]; omega
      refine ⟨Nat.mod_lt _ (by norm_num), ?_, enc6_bytes_lt d⟩
      simp only [he, enc6_length d, FRU_FIELDDATALEN_128 _ h6]
  rw [if_neg h2] at h
  by_cases h3 : FRU_TYPE (fru_get_typelen len (some d) ad) = 1
  · rw [if_pos h3] at h
    have hf := Option.some.inj h
    subst hf
    refine ⟨htl, ?_, ?_⟩
    · simp [fru_encode_bcdplus_data]
    · intro b hb
      simp only [fru_encode_bcdplus_data, List.mem_map] at hb
      obtain ⟨j, _, rfl⟩ := hb
      exact Nat.mod_lt _ (by norm_num)
  · rw [if_neg h3] at h
    have hf := Option.some.inj h
    subst hf
    refine ⟨htl, ?_, ?_⟩
    · simp
    · intro b hb
      simp only [List.mem_map] at hb
      obtain ⟨j, _, rfl⟩ := hb
      exact getD_lt256 d j hd

/-- All mandatory fields encoded by the `fru_create_info_area` loop are
well-formed. -/
theorem encode_strings_wf : ∀ (L : List (field_type × List Nat)) (ad : Bool)
    (fs : List FruField),
    (∀ p ∈ L, (∀ b ∈ p.2, b < 256) ∧ p.2.length ≤ 255) →
    encode_strings L ad = some fs → ∀ f ∈ fs, FruFieldWF f
  | [], _, fs, _, h => by
    simp only [encode_strings] at h
    have hf := Option.some.inj h
    subst hf
    simp
  | (t, s) :: rest, ad, fs, hL, h => by
    simp only [encode_strings] at h
    by_cases ht : t = field_type.binary
    · rw [if_pos ht] at h
      exact Option.noConfusion h
    · rw [if_neg ht] at h
      cases he : fru_encode_data (field_type_len t) (some s) ad with
        | none => rw [he] at h; exact Option.noConfusion h
        | some f0 =>
          rw [he] at h
          cases hr : encode_strings rest ad with
          | none => rw [hr] at h; exact Option.noConfusion h
          | some fs0 =>
            rw [hr] at h
            have hf := Option.some.inj h
            subst hf
            intro f hf
            rcases List.mem_cons.mp hf with rfl | hf0
            · exact fru_encode_data_wf _ s (hL (t, s) (by simp)).1 (hL (t, s) (by simp)).2 ad f he
            · exact encode_strings_wf rest ad fs0 (fun p hp => hL p (by simp [hp])) hr f hf0

theorem encode_strings_length : ∀ (L : List (field_type × List Nat)) (ad : Bool)
    (fs : List FruField), encode_strings L ad = some fs → fs.length = L.length
  | [], _, fs, h => by
    simp only [encode_strings] at h
    have hf := Option.some.inj h
    subst hf
    rfl
  | (t, s) :: rest, ad, fs, h => by
    simp only [encode_strings] at h
    by_cases ht : t = field_type.binary
    · rw [if_pos ht] at h
      exact Option.noConfusion h
    · rw [if_neg ht] at h
      cases he : fru_encode_data (field_type_len t) (some s) ad with
        | none => rw [he] at h; exact Option.noConfusion h
        | some f0 =>
          rw [he] at h
          cases hr : encode_strings rest ad with
          | none => rw [hr] at h; exact Option.noConfusion h
          | some fs0 =>
            rw [hr] at h
            have hf := Option.some.inj h
            subst hf
            simp [encode_strings_length rest ad fs0 hr]

/-- The flattened byte image of a list of well-formed fields is as long as
the sum of their `FRU_FIELDSIZE` values. -/
theorem fields_flatten_length (fs : List FruField) (h : ∀ f ∈ fs, FruFieldWF f) :
    ((fs.map fieldBytes).flatten).length
      = (fs.map (fun f => FRU_FIELDSIZE f.typelen)).sum := by
  induction fs with
  | nil => rfl
  | cons f rest ih =>
    simp only [List.map_cons, List.flatten_cons, List.length_append, List.sum_cons,
      fieldBytes, List.length_cons]
    rw [ih (fun g hg => h g (by simp [hg])), (h f (by simp)).2.1]
    unfold FRU_FIELDSIZE
    omega

theorem fields_sum_le (fs : List FruField) (h : ∀ f ∈ fs, FruFieldWF f) :
    (fs.map (fun f => FRU_FIELDSIZE f.typelen)).sum ≤ 64 * fs.length := by
  induction fs with
  | nil => simp
  | cons f rest ih =>
    simp only [List.map_cons, List.sum_cons, List.length_cons]
    have h1 : FRU_FIELDSIZE f.typelen ≤ 64 := by
      unfold FRU_FIELDSIZE
      rw [FRU_FIELDDATALEN_lt_256 _ (h f (by simp)).1]
      omega
    have h2 := ih (fun g hg => h g (by simp [hg]))
    omega

/-- Appending the checksum byte makes the whole area sum to 0 mod 256. -/
theorem body_checksum_sum (body : List Nat) :
    (body ++ [calc_checksum (body ++ [0])]).sum % 256 = 0 := by
  simp only [calc_checksum, List.sum_append, List.sum_cons, List.sum_nil]
  omega

/-- The checksum byte is stored in the last byte of the assembled area. -/
theorem body_checksum_last (body : List Nat) :
    (body ++ [calc_checksum (body ++ [0])]).getLast?
      = some (calc_checksum ((body ++ [calc_checksum (body ++ [0])]).dropLast ++ [0])) := by
  rw [List.getLast?_concat, List.dropLast_concat]

/-- Structural facts about an assembled information area: its checksum
closes the sum mod 256, its length is the advertised number of blocks times
8, the block count is stored in header byte 1, and the checksum byte is the
last byte. -/
theorem assembled_area_spec (lang2 T : Nat) (datebytes : List Nat) (fields : List FruField)
    (hwf : ∀ f ∈ fields, FruFieldWF f) (hcount : fields.length ≤ 31)
    (hdl : datebytes.length ≤ 3)
    (hT : T = 2 + (3 + datebytes.length) + (fields.map (fun f => FRU_FIELDSIZE f.typelen)).sum)
    (area : List Nat)
    (harea : area = [1, FRU_BLOCKS T % 256, lang2] ++ datebytes
        ++ (fields.map fieldBytes).flatten ++ [FRU_FIELD_TERMINATOR]
        ++ List.replicate (FRU_BYTES (FRU_BLOCKS T % 256) - T) 0
      ++ [calc_checksum ([1, FRU_BLOCKS T % 256, lang2] ++ datebytes
        ++ (fields.map fieldBytes).flatten ++ [FRU_FIELD_TERMINATOR]
        ++ List.replicate (FRU_BYTES (FRU_BLOCKS T % 256) - T) 0 ++ [0])]) :
    area.sum % 256 = 0
    ∧ ∃ blocks, area.getD 1 0 = blocks ∧ blocks ≤ 255 ∧ area.length = FRU_BYTES blocks
        ∧ area.getLast? = some (calc_checksum (area.dropLast ++ [0])) := by
  subst harea
  have hS := fields_sum_le fields hwf
  have hTb : T ≤ 1992 := by omega
  have hBlt : FRU_BLOCKS T < 256 := by unfold FRU_BLOCKS FRU_BLOCK_SZ; omega
  have hBmod : FRU_BLOCKS T % 256 = FRU_BLOCKS T := Nat.mod_eq_of_lt hBlt
  refine ⟨body_checksum_sum _, FRU_BLOCKS T % 256, ?_, by omega, ?_, body_checksum_last _⟩
  · simp [List.getD_cons_succ, List.getD_cons_zero]
  · simp only [List.length_append, List.length_cons, List.length_replicate,
      fields_flatten_length fields hwf, List.length_nil]
    rw [hBmod]
    unfold FRU_BYTES FRU_BLOCKS FRU_BLOCK_SZ
    omega

set_option maxHeartbeats 2000000 in
/-- C1.  Every Information Area successfully built by
`fru_create_info_area` (from byte strings and well-formed custom fields,
with at most 31 fields so the block count fits its header byte) sums to 0
mod 256 over all `blocks * 8` bytes, with the checksum stored in the last
byte and the block count in header byte 1. -/
theorem fru_create_info_area_checksum
    (atype langtype : Nat) (tv : Option Nat)
    (strings : List (field_type × List Nat)) (customs : List FruField) (ad : Bool)
    (hstr : ∀ p ∈ strings, (∀ b ∈ p.2, b < 256) ∧ p.2.length ≤ 255)
    (hcust : ∀ f ∈ customs, FruFieldWF f)
    (hcount : strings.length + customs.length ≤ 31)
    (area : List Nat)
    (h : fru_create_info_area atype langtype tv strings customs ad = some area) :
    area.sum % 256 = 0
    ∧ ∃ blocks, area.getD 1 0 = blocks ∧ blocks ≤ 255 ∧ area.length = FRU_BYTES blocks
        ∧ area.getLast? = some (calc_checksum (area.dropLast ++ [0])) := by
  simp only [fru_create_info_area] at h
  by_cases hgen : FRU_AREA_IS_GENERIC atype
  case neg =>
    rw [if_pos hgen] at h
    exact Option.noConfusion h
  rw [if_neg (not_not_intro hgen)] at h
  by_cases hdate : FRU_AREA_HAS_DATE atype
  · simp only [if_pos hdate] at h
    cases tv with
    | none => exact Option.noConfusion h
    | some ft =>
      cases hes : encode_strings strings ad with
      | none =>
        rw [hes] at h
        exact Option.noConfusion h
      | some mandatory =>
        rw [hes] at h
        have hwf : ∀ f ∈ mandatory ++ customs, FruFieldWF f := fun f hf =>
          (List.mem_append.mp hf).elim
            (encode_strings_wf strings ad mandatory hstr hes f) (hcust f)
        have hml := encode_strings_length strings ad mandatory hes
        exact assembled_area_spec (langtype % 256)
          (2 + 6 + (List.map (fun f => FRU_FIELDSIZE f.typelen) (mandatory ++ customs)).sum)
          [ft &&& 255, ft >>> 8 &&& 255, ft >>> 16 &&& 255] (mandatory ++ customs)
          hwf (by simp only [List.length_append, hml]; omega) (by simp) (by norm_num)
          area (Option.some.inj h).symm
  · simp only [if_neg hdate] at h
    cases hes : encode_strings strings ad with
    | none =>
      rw [hes] at h
      exact Option.noConfusion h
    | some mandatory =>
      rw [hes] at h
      have hwf : ∀ f ∈ mandatory ++ customs, FruFieldWF f := fun f hf =>
        (List.mem_append.mp hf).elim
          (encode_strings_wf strings ad mandatory hstr hes f) (hcust f)
      have hml := encode_strings_length strings ad mandatory hes
      exact assembled_area_spec (langtype % 256)
        (2 + 3 + (List.map (fun f => FRU_FIELDSIZE f.typelen) (mandatory ++ customs)).sum)
        [] (mandatory ++ customs)
        hwf (by simp only [List.length_append, hml]; omega) (by simp) (by norm_num)
        area (Option.some.inj h).symm

/-- C1 witness: a chassis area built from the strings "AB" (6-bit) and
"12" (BCD-plus); the resulting 2-block area sums to 0 mod 256 with the
checksum byte 190 stored last. -/
theorem fru_create_info_area_checksum_witness :
    ((∀ p ∈ ([(field_type.auto, [65, 66]), (field_type.auto, [49, 50])] :
        List (field_type × List Nat)), (∀ b ∈ p.2, b < 256) ∧ p.2.length ≤ 255)
      ∧ ([(field_type.auto, [65, 66]), (field_type.auto, [49, 50])] :
          List (field_type × List Nat)).length + ([] : List FruField).length ≤ 31
      ∧ fru_create_info_area 1 0 none
          [(field_type.auto, [65, 66]), (field_type.auto, [49, 50])] [] true
          = some [1, 2, 0, 130, 161, 8, 65, 18, 193, 0, 0, 0, 0, 0, 0, 190])
    ∧ (([1, 2, 0, 130, 161, 8, 65, 18, 193, 0, 0, 0, 0, 0, 0, 190] : List Nat).sum % 256 = 0
      ∧ ∃ blocks,
          ([1, 2, 0, 130, 161, 8, 65, 18, 193, 0, 0, 0, 0, 0, 0, 190] : List Nat).getD 1 0
            = blocks
          ∧ blocks ≤ 255
          ∧ ([1, 2, 0, 130, 161, 8, 65, 18, 193, 0, 0, 0, 0, 0, 0, 190] : List Nat).length
              = FRU_BYTES blocks
          ∧ ([1, 2, 0, 130, 161, 8, 65, 18, 193, 0, 0, 0, 0, 0, 0, 190] : List Nat).getLast?
              = some (calc_checksum
                  (([1, 2, 0, 130, 161, 8, 65, 18, 193, 0, 0, 0, 0, 0, 0, 190] :
                    List Nat).dropLast ++ [0]))) :=
  ⟨⟨by decide, by decide, by decide⟩,
    fru_create_info_area_checksum 1 0 none
      [(field_type.auto, [65, 66]), (field_type.auto, [49, 50])] [] true
      (by decide) (by simp) (by decide)
      [1, 2, 0, 130, 161, 8, 65, 18, 193, 0, 0, 0, 0, 0, 0, 190] (by decide)⟩
